import Mathlib

/-!
Verification of the draculab network construction and simulation kernel
(`network.py`, `units.py`) against its natural-language specification.

The Python code is shallowly embedded: times, activities and weights are
rationals (`ℚ`), Python lists are Lean `List`s, Python `set`s are `Finset`s,
fallible code returns `Except String`.  External sources of randomness
(`random.sample`, `np.random.randint`, `np.random.uniform`) are passed in as
function parameters; theorems about randomized paths hypothesize exactly the
contract those library functions guarantee.
-/

namespace Draculab

/-- Python 3 `round` on a rational: round half to even (banker's rounding).
Used by `network.connect` as `round(d_dict['low']/self.min_delay)` and by
`unit.init_buffers` as `int(round(self.delay/min_del))`. -/
def pyRound (q : ℚ) : ℤ :=
  let f : ℤ := ⌊q⌋
  let r : ℚ := q - f
  if r < 1/2 then f
  else if 1/2 < r then f + 1
  else if f % 2 = 0 then f else f + 1

/-- Python `int(x)` for the step count `int(total_time/self.min_delay)` in
`network.run`.  For a non-negative argument this is the floor; for a negative
argument Python truncates toward zero, but `range` of a negative count is
empty, so the number of executed steps is the clamped floor either way. -/
def pySteps (total min_delay : ℚ) : ℕ := (Int.toNat ⌊total / min_delay⌋)

/-! Connection-pair construction (`network.connect`, lines 204-244)

`conn_spec` keeps the rule as a string, exactly as in the source, so that the
unknown-rule branch is representable.  `random.sample(pool, k)` is modeled by
the parameter `samp : List ℕ → ℕ → List ℕ`; `random.sample` raises when the
sample size exceeds the population, which is checked before `samp` is used.
The `while u in to_copy: to_copy.remove(u)` loop removes every occurrence of
`u`, i.e. it is a filter. -/

/-- The delay entry of `conn_spec`: either a scalar or a uniform-distribution
dictionary (the only implemented distribution). -/
inductive delaySpec where
  | scalar (d : ℚ)
  | uniform (low high : ℚ)
deriving DecidableEq

/-- The `init_w` entry of `syn_spec`: a scalar or a uniform-distribution
dictionary.  `network.connect` overwrites this entry with a plain float. -/
inductive wSpec where
  | scalar (w : ℚ)
  | uniform (low high : ℚ)
deriving DecidableEq

/-- The optional `inp_ports` entry of `syn_spec`. -/
inductive portSpec where
  | absent
  | single (p : ℕ)
  | listed (ps : List ℕ)
deriving DecidableEq

/-- The `conn_spec` dictionary of `network.connect`. -/
structure connSpec where
  rule : String
  allow_autapses : Bool
  outdegree : ℕ
  indegree : ℕ
  delay : delaySpec
deriving DecidableEq

/-- Removing every occurrence of `u`:
`to_copy = to_list.copy(); while u in to_copy: to_copy.remove(u)`. -/
def removeAll (u : ℕ) (l : List ℕ) : List ℕ := l.filter (fun x => x ≠ u)

/-- The candidate `(source, target)` pair list of `network.connect`
(lines 207-242), one branch per connection rule. -/
def connectionPairs (cs : connSpec) (from_list to_list : List ℕ)
    (samp : List ℕ → ℕ → List ℕ) : Except String (List (ℕ × ℕ)) :=
  if cs.rule = "fixed_outdegree" then
    from_list.foldlM (fun acc u => do
      let pool := if cs.allow_autapses then to_list else removeAll u to_list
      if cs.outdegree > pool.length then
        .error "Sample larger than population"
      else
        .ok (acc ++ (samp pool cs.outdegree).map (fun y => (u, y)))) []
  else if cs.rule = "fixed_indegree" then
    to_list.foldlM (fun acc u => do
      let pool := if cs.allow_autapses then from_list else removeAll u from_list
      if cs.indegree > pool.length then
        .error "Sample larger than population"
      else
        .ok (acc ++ (samp pool cs.indegree).map (fun x => (x, u)))) []
  else if cs.rule = "all_to_all" then
    if cs.allow_autapses then
      .ok (from_list.flatMap (fun x => to_list.map (fun y => (x, y))))
    else
      .ok (from_list.flatMap (fun x =>
        (to_list.filter (fun y => x ≠ y)).map (fun y => (x, y))))
  else if cs.rule = "one_to_one" then
    if to_list.length ≠ from_list.length then
      .error "one_to_one connectivity requires equal number of sources and targets"
    else
      if cs.allow_autapses = false then
        .ok ((from_list.zip to_list).filter (fun p => p.1 ≠ p.2))
      else
        .ok (from_list.zip to_list)
  else
    .error "Attempting connect with an unknown rule"

/-! Weight, delay and port assignment (`network.connect`, lines 246-288) -/

/-- Weight initialization (lines 248-257).  `np.random.uniform(low, high, n)`
is the parameter `udraw`.  The `TypeError` branch for a wrong value type is
not representable in the typed embedding. -/
def makeWeights (ws : wSpec) (n : ℕ) (udraw : ℚ → ℚ → ℕ → List ℚ) :
    Except String (List ℚ) :=
  match ws with
  | .uniform low high => .ok (udraw low high n)
  | .scalar w => .ok (List.replicate n w)

/-- Delay initialization (lines 259-274).  In the uniform branch the bounds
are converted to integer multiples of `min_delay`, clamped below at one, and
`np.random.randint(low_int, high_int, n)` (the parameter `randint`) draws the
multiples; `np.random.randint` raises when `low_int >= high_int`.  The scalar
branch stores the scalar itself, with no rounding and no check. -/
def makeDelayz (ds : delaySpec) (min_delay : ℚ) (n : ℕ)
    (randint : ℤ → ℤ → ℕ → List ℤ) : Except String (List ℚ) :=
  match ds with
  | .uniform low high =>
      let low_int : ℤ := max 1 (pyRound (low / min_delay))
      let high_int : ℤ := max 1 (pyRound (high / min_delay)) + 1
      if high_int ≤ low_int then .error "low >= high"
      else .ok ((randint low_int high_int n).map (fun k : ℤ => min_delay * (k : ℚ)))
  | .scalar d => .ok (List.replicate n d)

/-- Input-port initialization (lines 276-288). -/
def makePortz (ps : portSpec) (n : ℕ) : Except String (List ℕ) :=
  match ps with
  | .absent => .ok (List.replicate n 0)
  | .single p => .ok (List.replicate n p)
  | .listed l =>
      if l.length = n then .ok l
      else .error "Number of input ports specified does not match number of connections created"

/-! The wiring loop (`network.connect`, lines 290-307)

The loop writes into three per-target tables (`act`, `syns`, `delays`) and
mutates the caller's `syn_spec` dictionary in place: `syn_params = syn_spec`
binds a second name to the *same* dictionary, so the per-connection entries
written through `syn_params` survive in the caller's `syn_spec`. -/

/-- The mutable entries of the `syn_spec` dictionary.  `preID`, `postID` and
`inp_port` are absent until `connect` writes them. -/
structure synSpecD where
  typ : ℕ
  init_w : wSpec
  inp_ports : portSpec
  preID : Option ℕ
  postID : Option ℕ
  inp_port : Option ℕ
deriving DecidableEq

/-- The synapse object created for one connection, as far as the wiring
tables are concerned (constructed from `syn_params` at append time). -/
structure synRec where
  preID : ℕ
  postID : ℕ
  w : ℚ
  inp_port : ℕ
deriving DecidableEq

/-- The connectivity state owned by the `network` object.  `act i` records the
IDs of the units whose `get_act` closure was appended for unit `i`;
`unitDelays i` is the `delay` attribute of unit `i` (its maximum outgoing
delay).  Unit buffers are modeled separately in `initBuffers`. -/
structure Wnet where
  n_units : ℕ
  min_delay : ℚ
  delays : List (List ℚ)
  act : List (List ℕ)
  syns : List (List synRec)
  unitDelays : List ℚ
deriving DecidableEq

/-- Replace entry `i` of a table of lists by `f` of its current value. -/
def tmod (l : List (List α)) (i : ℕ) (f : List α → List α) : List (List α) :=
  l.set i (f (l.getD i []))

/-- One iteration of the wiring loop (lines 292-307) for the connection
`(s, t)` with weight `w`, delay `d` and input port `p`:
append the source accessor, mutate `syn_spec` and append the synapse built
from it, append the delay, and enlarge the source's `delay` attribute when
the new connection's delay reaches it (the associated `init_buffers` call is
modeled in `initBuffers`). -/
def wireStep (min_delay : ℚ) (net : Wnet) (ss : synSpecD)
    (s t : ℕ) (w d : ℚ) (p : ℕ) : Wnet × synSpecD :=
  let act' := tmod net.act t (fun l => l ++ [s])
  let ss' : synSpecD :=
    { ss with preID := some s, postID := some t, init_w := .scalar w, inp_port := some p }
  let syns' := tmod net.syns t (fun l => l ++ [⟨s, t, w, p⟩])
  let delays' := tmod net.delays t (fun l => l ++ [d])
  let uds :=
    if net.unitDelays.getD s 0 ≤ d then
      net.unitDelays.set s (d + min_delay)
    else net.unitDelays
  ({ net with act := act', syns := syns', delays := delays', unitDelays := uds }, ss')

/-- The wiring loop over the list of `(source, target, weight, delay, port)`
records; `connect` builds this list by indexing four equal-length lists. -/
def wireLoop (min_delay : ℚ) :
    List (ℕ × ℕ × ℚ × ℚ × ℕ) → Wnet → synSpecD → Wnet × synSpecD
  | [], net, ss => (net, ss)
  | (s, t, w, d, p) :: rest, net, ss =>
      let (net', ss') := wireStep min_delay net ss s t w d p
      wireLoop min_delay rest net' ss'

/-- Zip the per-connection data exactly as the `enumerate` loop pairs them. -/
def zipConn (conns : List (ℕ × ℕ)) (ws dz : List ℚ) (pz : List ℕ) :
    List (ℕ × ℕ × ℚ × ℚ × ℕ) :=
  (conns.zip (ws.zip (dz.zip pz))).map (fun q => (q.1.1, q.1.2, q.2.1, q.2.2.1, q.2.2.2))

/-- Model of `network.connect` (lines 161-312): ID-range check, pair construction,
weight/delay/port assignment, wiring loop.  The trailing
`init_pre_syn_update` calls for the connected units are modeled separately in
`init_pre_syn_update`. -/
def connect (net : Wnet) (from_list to_list : List ℕ)
    (cs : connSpec) (ss : synSpecD)
    (samp : List ℕ → ℕ → List ℕ)
    (randint : ℤ → ℤ → ℕ → List ℤ)
    (udraw : ℚ → ℚ → ℕ → List ℚ) : Except String (Wnet × synSpecD) :=
  if (from_list ++ to_list).any (fun i => net.n_units ≤ i) then
    .error "Attempting to connect units with an ID out of range"
  else
    match connectionPairs cs from_list to_list samp with
    | .error e => .error e
    | .ok conns =>
      match makeWeights ss.init_w conns.length udraw with
      | .error e => .error e
      | .ok weights =>
        match makeDelayz cs.delay net.min_delay conns.length randint with
        | .error e => .error e
        | .ok delayz =>
          match makePortz ss.inp_ports conns.length with
          | .error e => .error e
          | .ok portz =>
            .ok (wireLoop net.min_delay (zipConn conns weights delayz portz) net ss)

/-! The simulation loop (`network.run`, lines 526-564)

`run(total_time)` computes `Nsteps = int(total_time/self.min_delay)` and, per
step, stores the current unit activities and plant states (reads only), runs
`unit.update(self.sim_time)` for every unit, then `plant.update` for every
plant, then advances `sim_time` by `min_delay`.  The state mutated by the
update loops (unit buffers and times, synapse weights, plant buffers,
requirement variables) is abstracted into a type `S`; the composite effect of
the two update loops at a given `sim_time` is the function `adv`, which is a
pure function of the current time and state because, by hypothesis, no model
in the network is stochastic. -/

/-- A network during simulation: the clock plus the state mutated by the
per-step update loops. -/
structure simNet (S : Type) where
  min_delay : ℚ
  sim_time : ℚ
  state : S
deriving DecidableEq

/-- One `min_delay` step of `network.run`: the update loops run at the current
`sim_time`, then `self.sim_time += self.min_delay`.  The storage arrays
(`times`, `unit_stor`, `plant_stor`) are outputs only and are not part of the
network state. -/
def netStep (adv : ℚ → S → S) (n : simNet S) : simNet S :=
  { n with state := adv n.sim_time n.state, sim_time := n.sim_time + n.min_delay }

/-- Model of `network.run total_time`: `Nsteps` repetitions of `netStep`. -/
def runNet (adv : ℚ → S → S) (total_time : ℚ) (n : simNet S) : simNet S :=
  (netStep adv)^[pySteps total_time n.min_delay] n

/-! The per-step event order (`network.run` lines 543-562,
`unit.update` lines 193-222)

The temporal claims are about the order in which the scheduler touches
entities inside one step, and the order of operations inside one
`unit.update` call.  Both orders are direct transcriptions of the statement
order of the source, as event lists. -/

/-- The observable actions of one step of `network.run`, in source order:
`unit.get_act(sim_time)` reads (`sampleUnit`), `plant.get_state(sim_time)`
reads (`samplePlant`), `unit.update(sim_time)` calls (`updateUnit`),
`plant.update(sim_time)` calls (`updatePlant`). -/
inductive stepEv where
  | sampleUnit (uid : ℕ)
  | samplePlant (pid : ℕ)
  | updateUnit (uid : ℕ)
  | updatePlant (pid : ℕ)
deriving DecidableEq

/-- Whether the event records a same-tick "current value" read. -/
def stepEv.isSample : stepEv → Bool
  | .sampleUnit _ => true
  | .samplePlant _ => true
  | _ => false

/-- Whether the event integrates an entity's dynamics forward. -/
def stepEv.isAdvance : stepEv → Bool
  | .updateUnit _ => true
  | .updatePlant _ => true
  | _ => false

/-- The body of `for step in range(Nsteps)` in `network.run` (lines 543-562)
for `nU` units and `nP` plants, as the list of entity touches in statement
order: store all unit activities, store all plant states, update all units,
update all plants. -/
def stepTrace (nU nP : ℕ) : List stepEv :=
  ((List.range nU).map stepEv.sampleUnit ++ (List.range nP).map stepEv.samplePlant)
    ++ ((List.range nU).map stepEv.updateUnit ++ (List.range nP).map stepEv.updatePlant)

/-- The operations of one `unit.update(time)` call (lines 193-222), in
statement order: roll the `times` array, roll and refill the activation
buffer with the `odeint` output, call `pre_syn_update`, update each incoming
synapse, record `last_time`. -/
inductive unitEv where
  | rollTimes
  | rollBuffer
  | preSynUpd
  | synUpd (i : ℕ)
  | setLastTime
deriving DecidableEq

/-- The event list of `unit.update` for a unit with `nSyn` incoming
synapses. -/
def unitUpdateTrace (nSyn : ℕ) : List unitEv :=
  [unitEv.rollTimes, unitEv.rollBuffer, unitEv.preSynUpd]
    ++ ((List.range nSyn).map unitEv.synUpd ++ [unitEv.setLastTime])

/-! Activation buffers (`unit.init_buffers` lines 81-116,
`unit.get_act` lines 225-267)

`init_buffers` asserts `sim_time == 0`, computes `steps = int(round(delay /
min_delay))`, and (for non-source units) allocates a buffer of
`buff_size = steps * min_buff_size` copies of `init_val`, the matching
`times = linspace(-delay, 0, buff_size)` array, and the lookup interval
`time_bit = times[1] - times[0] + 1e-9`.  The low-pass-filter buffers touched
when the corresponding requirements are active hold `steps` copies of
`init_val`; they do not affect `get_act` and are represented by their length.

`get_act` is the cythonized third implementation quoted in the source:
`base, rem = divmod(time - times[0], time_bit)` (floor division), `base`
clamped to `[0, buff_size-2]`, then linear interpolation between
`buffer[base]` and `buffer[base+1]` with weight `rem / time_bit`. -/

/-- The buffer state of a unit created by `init_buffers`. -/
structure bufState where
  steps : ℤ
  offset : ℤ
  buff_size : ℤ
  buffer : List ℚ
  times : List ℚ
  time_bit : ℚ
  lpf_buff_len : ℤ
deriving DecidableEq

/-- Model of `np.linspace(lo, hi, n)`: `n` regularly spaced points from `lo` to
`hi`. -/
def linspace (lo hi : ℚ) (n : ℕ) : List ℚ :=
  (List.range n).map (fun i => lo + (hi - lo) * i / (n - 1))

/-- Model of `unit.init_buffers` for a non-source unit: the `sim_time == 0` assertion
followed by the buffer allocation.  `min_buff` is the network's
`min_buff_size`. -/
def initBuffers (sim_time min_delay : ℚ) (min_buff : ℕ) (delay init_val : ℚ) :
    Except String bufState :=
  if sim_time ≠ 0 then
    .error "Buffers are being reset when the simulation time is not zero"
  else
    let steps : ℤ := pyRound (delay / min_delay)
    let buff_size : ℤ := steps * min_buff
    let times := linspace (-delay) 0 buff_size.toNat
    .ok { steps := steps
          offset := (steps - 1) * min_buff
          buff_size := buff_size
          buffer := List.replicate buff_size.toNat init_val
          times := times
          time_bit := times.getD 1 0 - times.getD 0 0 + 1/1000000000
          lpf_buff_len := steps }

/-- Model of `unit.get_act time` (the `cython_get_act` algorithm). -/
def getAct (u : bufState) (time : ℚ) : ℚ :=
  let x := time - u.times.getD 0 0
  let base : ℤ := ⌊x / u.time_bit⌋
  let rem : ℚ := x - base * u.time_bit
  let base2 : ℤ := max 0 (min base (u.buff_size - 2))
  let frac2 : ℚ := rem / u.time_bit
  u.buffer.getD base2.toNat 0
    + frac2 * (u.buffer.getD (base2.toNat + 1) 0 - u.buffer.getD base2.toNat 0)

/-! Wiring-time guards (`network.create_units` lines 92-102,
`network.create_plant` lines 60-73, `unit.init_buffers` line 89,
`unit.init_pre_syn_update` line 302)

Every wiring mutation starts with an `assert` (or, for `init_pre_syn_update`,
runs under one) that the simulation clock is still at zero.  `create_units`
first asserts that `n` is a positive integer, then the clock; `create_plant`
asserts the clock first and then rejects `n != 1`. -/

/-- Model of `network.create_units`: the two leading assertions, then the appending of
`n` fresh unit IDs and `n` empty slots to the connectivity tables (the
construction of the unit objects themselves is external model code). -/
def createUnits (net : Wnet) (sim_time : ℚ) (n : ℕ) : Except String (Wnet × List ℕ) :=
  if ¬ (0 < n) then .error "Number of units must be a positive integer"
  else if sim_time ≠ 0 then
    .error "Units are being created when the simulation time is not zero"
  else
    .ok ({ net with
            n_units := net.n_units + n
            delays := net.delays ++ List.replicate n []
            act := net.act ++ List.replicate n []
            syns := net.syns ++ List.replicate n [] },
         (List.range n).map (fun i => net.n_units + i))

/-- Model of `network.create_plant`: the clock assertion, then the one-plant-per-call
check.  The plant construction itself is external model code; the result is
the new plant's ID given the current `n_plants`. -/
def createPlant (sim_time : ℚ) (n_plants : ℕ) (n : ℕ) : Except String ℕ :=
  if sim_time ≠ 0 then
    .error "A plant is being created when the simulation time is not zero"
  else if n ≠ 1 then
    .error "Only one plant can be created on each call to create()"
  else
    .ok n_plants

/-! Requirement resolution (`unit.init_pre_syn_update`, lines 270-456)

`syn_reqs` is the enum of requirement names (`draculab.py`); `synapse_types`
carries the tags the resolution code dispatches on.  A synapse is represented
by the attributes the resolution code reads or writes: `preID`, `type`, `w`,
`input_type` (only meaningful for `inp_corr` synapses), `upd_requirements`
and the mutable `delay_steps`.

The unit's per-requirement state attributes are grouped into one optional
field per requirement (`none` = the Python attribute does not exist); the doc
comment of each field names the attributes it stands for.  `functions` is the
set `self.functions` of registered update closures, represented by the
`updFn` tag of the bound method (Python bound methods of the same object
compare equal, so `set.add` of the same method is absorbed). -/

/-- The requirement names (the `syn_reqs` enum). -/
inductive syn_reqs where
  | lpf_fast | lpf_mid | lpf_slow | sq_lpf_slow
  | inp_vector | inp_avg | pos_inp_avg | err_diff | sc_inp_sum | diff_avg
  | lpf_mid_inp_sum | n_erd | balance | exp_scale | slide_thresh
  | pre_lpf_fast | pre_lpf_mid | pre_lpf_slow
deriving DecidableEq, Fintype

/-- The synapse-type tags read by `init_pre_syn_update`. -/
inductive synapse_types where
  | static | oja | hebbsnorm | sq_hebbsnorm | diff_hebbsnorm
  | inp_corr | exp_rate_dist
deriving DecidableEq

/-- The `input_type` attribute of `inp_corr` synapses. -/
inductive inputType where
  | errT | predT | otherT
deriving DecidableEq

/-- A synapse as seen by `init_pre_syn_update`. -/
structure synM where
  preID : ℕ
  typ : synapse_types
  w : ℚ
  input_type : inputType
  upd_requirements : Finset syn_reqs
  delay_steps : ℤ
deriving DecidableEq

/-- The update closures that `init_pre_syn_update` registers in
`self.functions`. -/
inductive updFn where
  | upd_lpf_fast | upd_lpf_mid | upd_lpf_slow | upd_sq_lpf_slow
  | upd_inp_vector | upd_inp_avg | upd_pos_inp_avg | upd_err_diff
  | upd_sc_inp_sum | upd_diff_avg | upd_lpf_mid_inp_sum
  | upd_balance | upd_exp_scale | upd_thresh
deriving DecidableEq

/-- The attributes set by the `inp_avg` arm; presynaptic units are
represented by their IDs. -/
structure inpAvgSt where
  snorm_list : List ℕ
  snorm_dels : List ℤ
  n_hebbsnorm : ℕ
  inp_avg : ℚ
  snorm_list_dels : List (ℕ × ℤ)
deriving DecidableEq

/-- The attributes set by the `pos_inp_avg` arm; units by ID, synapses by
their index in `net.syns[ID]`. -/
structure posInpAvgSt where
  snorm_units : List ℕ
  snorm_syns : List ℕ
  snorm_delys : List ℤ
  pos_inp_avg : ℚ
  n_vec : List ℚ
deriving DecidableEq

/-- The attributes set by the `err_diff` arm. -/
structure errDiffSt where
  err_idx : List ℕ
  pred_idx : List ℕ
  err_dels : List ℤ
  err_diff : ℚ
  err_idx_dels : List (ℕ × ℤ)
deriving DecidableEq

/-- The attributes set by the `sc_inp_sum` arm; each `u_d_syn` entry is
`(preID, delay_steps, synapse index)`. -/
structure scInpSumSt where
  u_d_syn : List (ℕ × ℤ × ℕ)
  sc_inp_sum : ℚ
deriving DecidableEq

/-- The attributes set by the `diff_avg` arm. -/
structure diffAvgSt where
  dsnorm_list : List ℕ
  dsnorm_dels : List ℤ
  n_dhebbsnorm : ℕ
  diff_avg : ℚ
  dsnorm_list_dels : List (ℕ × ℤ)
deriving DecidableEq

/-- The attributes set by the `balance` arm. -/
structure balanceSt where
  below : ℚ
  above : ℚ
deriving DecidableEq

/-- The attributes set by the `exp_scale` arm; the index arrays are lists of
positions in `net.syns[ID]`. -/
structure expScaleSt where
  scale_facs : List ℚ
  exc_idx : List ℕ
  inh_idx : List ℕ
deriving DecidableEq

/-- The unit attributes read and written by `init_pre_syn_update`. -/
@[ext]
structure unitM where
  ID : ℕ
  init_val : ℚ
  tau_fast : Option ℚ
  tau_mid : Option ℚ
  tau_slow : Option ℚ
  syn_needs : Finset syn_reqs
  hasFunctions : Bool
  functions : Finset updFn
  /-- attribute `self.lpf_fast` -/
  lpf_fast : Option ℚ
  /-- attribute `self.lpf_mid` -/
  lpf_mid : Option ℚ
  /-- attribute `self.lpf_slow` -/
  lpf_slow : Option ℚ
  /-- attribute `self.sq_lpf_slow` -/
  sq_lpf_slow : Option ℚ
  /-- attribute `self.inp_vector` -/
  inp_vector : Option (List ℚ)
  /-- the `inp_avg` attributes -/
  inp_avg_st : Option inpAvgSt
  /-- the `pos_inp_avg` attributes -/
  pos_inp_avg_st : Option posInpAvgSt
  /-- the `err_diff` attributes -/
  err_diff_st : Option errDiffSt
  /-- the `sc_inp_sum` attributes -/
  sc_inp_sum_st : Option scInpSumSt
  /-- the `diff_avg` attributes -/
  diff_avg_st : Option diffAvgSt
  /-- attribute `self.lpf_mid_inp_sum` -/
  lpf_mid_inp_sum : Option ℚ
  /-- attribute `self.n_erd` -/
  n_erd : Option ℕ
  /-- the `balance` attributes `below`, `above` -/
  balance_st : Option balanceSt
  /-- the `exp_scale` attributes -/
  exp_scale_st : Option expScaleSt
deriving DecidableEq

/-- The branch precondition of each `elif` arm of the resolution loop: the
`hasattr` checks for the tau parameters, the explicit prerequisite
assertions, the `input_type` validation of `err_diff`, and the final
`NotImplementedError` arm (reached by the `pre_` requirements, which the
caller removes from `syn_needs` beforehand). -/
def reqCheck (u : unitM) (syns : List synM) (needs : Finset syn_reqs) :
    syn_reqs → Bool
  | .lpf_fast => u.tau_fast.isSome
  | .lpf_mid => u.tau_mid.isSome
  | .lpf_slow => u.tau_slow.isSome
  | .sq_lpf_slow => u.tau_slow.isSome
  | .inp_vector => true
  | .inp_avg => true
  | .pos_inp_avg => true
  | .err_diff => syns.all (fun s =>
      s.typ ≠ synapse_types.inp_corr ∨ s.input_type ≠ inputType.otherT)
  | .sc_inp_sum => true
  | .diff_avg => true
  | .lpf_mid_inp_sum => u.tau_mid.isSome ∧ syn_reqs.inp_vector ∈ needs
  | .n_erd => true
  | .balance => syn_reqs.inp_vector ∈ needs
  | .exp_scale => syn_reqs.balance ∈ needs
  | .slide_thresh => syn_reqs.balance ∈ needs
  | .pre_lpf_fast => false
  | .pre_lpf_mid => false
  | .pre_lpf_slow => false

/-- The exception message of each failing arm. -/
def reqErrMsg : syn_reqs → String
  | .lpf_fast => "Synaptic plasticity requires unit parameter tau_fast, not yet set"
  | .lpf_mid => "Synaptic plasticity requires unit parameter tau_mid, not yet set"
  | .lpf_slow => "Synaptic plasticity requires unit parameter tau_slow, not yet set"
  | .sq_lpf_slow => "Synaptic plasticity requires unit parameter tau_slow, not yet set"
  | .err_diff => "Incorrect input_type found in synapse"
  | .lpf_mid_inp_sum => "lpf_mid_inp_sum requires the inp_vector requirement to be set"
  | .balance => "balance requirement has the inp_vector requirement as a prerequisite"
  | .exp_scale => "exp_scale requires the balance requirement to be set"
  | .slide_thresh => "exp_scale requires the balance requirement to be set"
  | _ => "Asking for a requirement that is not implemented"

/-- The `inp_avg` arm's attribute values: `snorm_list` and `snorm_dels` are
collected from the `hebbsnorm` synapses, `inp_avg` starts at `0.2`. -/
def inpAvgVal (syns : List synM) : inpAvgSt :=
  let hs := syns.filter (fun s => s.typ = synapse_types.hebbsnorm)
  let snorm_list := hs.map synM.preID
  let snorm_dels := hs.map synM.delay_steps
  ⟨snorm_list, snorm_dels, hs.length, 1/5, snorm_list.zip snorm_dels⟩

/-- The `pos_inp_avg` arm's attribute values. -/
def posInpAvgVal (syns : List synM) : posInpAvgSt :=
  let hs := syns.enum.filter (fun p => p.2.typ = synapse_types.hebbsnorm)
  ⟨hs.map (fun p => p.2.preID), hs.map Prod.fst, hs.map (fun p => p.2.delay_steps),
   1/5, List.replicate hs.length 1⟩

/-- The `err_diff` arm's attribute values (after its `input_type`
validation). -/
def errDiffVal (syns : List synM) : errDiffSt :=
  let errs := syns.filter (fun s =>
    s.typ = synapse_types.inp_corr ∧ s.input_type = inputType.errT)
  let preds := syns.filter (fun s =>
    s.typ = synapse_types.inp_corr ∧ s.input_type = inputType.predT)
  let err_idx := errs.map synM.preID
  let err_dels := errs.map synM.delay_steps
  ⟨err_idx, preds.map synM.preID, err_dels, 0, err_idx.zip err_dels⟩

/-- The `sc_inp_sum` arm's attribute values. -/
def scInpSumVal (syns : List synM) : scInpSumSt :=
  let sq := syns.enum.filter (fun p => p.2.typ = synapse_types.sq_hebbsnorm)
  ⟨sq.map (fun p => (p.2.preID, p.2.delay_steps, p.1)), 1/5⟩

/-- The `diff_avg` arm's attribute values. -/
def diffAvgVal (syns : List synM) : diffAvgSt :=
  let ds := syns.filter (fun s => s.typ = synapse_types.diff_hebbsnorm)
  let dsnorm_list := ds.map synM.preID
  let dsnorm_dels := ds.map synM.delay_steps
  ⟨dsnorm_list, dsnorm_dels, ds.length, 1/5, dsnorm_list.zip dsnorm_dels⟩

/-- The `n_erd` arm's value: the number of `exp_rate_dist` synapses. -/
def nErdVal (syns : List synM) : ℕ :=
  syns.countP (fun s => s.typ = synapse_types.exp_rate_dist)

/-- The `exp_scale` arm's attribute values: unit scale factors and the
index arrays of excitatory (`w ≥ 0`) and inhibitory (`w < 0`) inputs. -/
def expScaleVal (syns : List synM) : expScaleSt :=
  ⟨List.replicate syns.length 1,
   (syns.enum.filter (fun p => 0 ≤ p.2.w)).map Prod.fst,
   (syns.enum.filter (fun p => p.2.w < 0)).map Prod.fst⟩

/-- The state assignments of each arm of the resolution loop, exactly the
initializations performed by the source (lines 333-452); every arm except
`n_erd` also registers its update closure in `self.functions`.  Note that the
arms run for *every* requirement in `syn_needs`, active or not: the
assignments are unconditional in the source. -/
def reqApply (syns : List synM) : syn_reqs → unitM → unitM
  | .lpf_fast, u =>
      { u with lpf_fast := some u.init_val
               functions := insert updFn.upd_lpf_fast u.functions }
  | .lpf_mid, u =>
      { u with lpf_mid := some u.init_val
               functions := insert updFn.upd_lpf_mid u.functions }
  | .lpf_slow, u =>
      { u with lpf_slow := some u.init_val
               functions := insert updFn.upd_lpf_slow u.functions }
  | .sq_lpf_slow, u =>
      { u with sq_lpf_slow := some u.init_val
               functions := insert updFn.upd_sq_lpf_slow u.functions }
  | .inp_vector, u =>
      { u with inp_vector := some (List.replicate syns.length u.init_val)
               functions := insert updFn.upd_inp_vector u.functions }
  | .inp_avg, u =>
      { u with inp_avg_st := some (inpAvgVal syns)
               functions := insert updFn.upd_inp_avg u.functions }
  | .pos_inp_avg, u =>
      { u with pos_inp_avg_st := some (posInpAvgVal syns)
               functions := insert updFn.upd_pos_inp_avg u.functions }
  | .err_diff, u =>
      { u with err_diff_st := some (errDiffVal syns)
               functions := insert updFn.upd_err_diff u.functions }
  | .sc_inp_sum, u =>
      { u with sc_inp_sum_st := some (scInpSumVal syns)
               functions := insert updFn.upd_sc_inp_sum u.functions }
  | .diff_avg, u =>
      { u with diff_avg_st := some (diffAvgVal syns)
               functions := insert updFn.upd_diff_avg u.functions }
  | .lpf_mid_inp_sum, u =>
      { u with lpf_mid_inp_sum := some u.init_val
               functions := insert updFn.upd_lpf_mid_inp_sum u.functions }
  | .n_erd, u =>
      { u with n_erd := some (nErdVal syns) }
  | .balance, u =>
      { u with balance_st := some ⟨1/2, 1/2⟩
               functions := insert updFn.upd_balance u.functions }
  | .exp_scale, u =>
      { u with exp_scale_st := some (expScaleVal syns)
               functions := insert updFn.upd_exp_scale u.functions }
  | .slide_thresh, u =>
      { u with functions := insert updFn.upd_thresh u.functions }
  | .pre_lpf_fast, u => u
  | .pre_lpf_mid, u => u
  | .pre_lpf_slow, u => u

/-- One arm of the resolution loop: the branch precondition guards the
assignments (in the source the check is the leading `if ... raise` of the
arm). -/
def applyReqE (syns : List synM) (needs : Finset syn_reqs) (u : unitM)
    (r : syn_reqs) : Except String unitM :=
  if reqCheck u syns needs r then .ok (reqApply syns r u) else .error (reqErrMsg r)

/-- The `elif`-chain order of the source, used as the canonical iteration
order of `for req in self.syn_needs` (a Python set iterates in unspecified
order; the arms write disjoint attributes and their checks read only
`syn_needs`, the synapse list and the tau parameters, which no arm writes, so
the outcome is order-independent). -/
def reqOrder : List syn_reqs :=
  [.lpf_fast, .lpf_mid, .lpf_slow, .sq_lpf_slow, .inp_vector, .inp_avg,
   .pos_inp_avg, .err_diff, .sc_inp_sum, .diff_avg, .lpf_mid_inp_sum, .n_erd,
   .balance, .exp_scale, .slide_thresh, .pre_lpf_fast, .pre_lpf_mid,
   .pre_lpf_slow]

/-- The loop `for req in self.syn_needs` (lines 333-454). -/
def resolveLoop (syns : List synM) (needs : Finset syn_reqs)
    (L : List syn_reqs) (u : unitM) : Except String unitM :=
  L.foldlM (applyReqE syns needs) u

/-- The `pre_` requirements handled through the outgoing-synapse scan. -/
def pre_reqs : Finset syn_reqs :=
  {syn_reqs.pre_lpf_fast, syn_reqs.pre_lpf_mid, syn_reqs.pre_lpf_slow}

/-- Computation of the new `syn_needs` (lines 311-327): union the
requirements of the incoming synapses into the existing set, subtract the
`pre_` requirements, then scan every synapse sent by this unit and add the
corresponding `lpf_` requirement when the outgoing synapse declares a `pre_`
requirement.  The source condition for `lpf_fast` is
`(syn_reqs.pre_lpf_fast or syn_reqs.inp_avg) in syn.upd_requirements`; the
`or` of two truthy enum members evaluates to its first operand, so only
`pre_lpf_fast` is actually tested, and the model reproduces that.
`outStep` is one iteration of the outgoing-synapse scan (lines 319-327). -/
def outStep (s : Finset syn_reqs) (syn : synM) : Finset syn_reqs :=
  let s1 := if syn_reqs.pre_lpf_fast ∈ syn.upd_requirements then
              insert syn_reqs.lpf_fast s else s
  let s2 := if syn_reqs.pre_lpf_mid ∈ syn.upd_requirements then
              insert syn_reqs.lpf_mid s1 else s1
  if syn_reqs.pre_lpf_slow ∈ syn.upd_requirements then
    insert syn_reqs.lpf_slow s2 else s2

def computeNeeds (u : unitM) (syns outgoing : List synM) : Finset syn_reqs :=
  let n1 := syns.foldl (fun s syn => s ∪ syn.upd_requirements) u.syn_needs
  outgoing.foldl outStep (n1 \ pre_reqs)

/-- Model of `unit.init_pre_syn_update` (lines 270-456): the `sim_time == 0`
assertion; the per-synapse `delay_steps` assignment (`preSteps i` is the
`steps` attribute of unit `i`, `delays` is `net.delays[ID]`); the `syn_needs`
computation; the lazily created `functions` set; and the resolution loop.
`outgoing` is the list of synapses of the whole network whose `preID` is this
unit.  The trailing `port_idx` block of the source (lines 458-465) reads
names (`multi_port`, `n_ports`, `net`) that are not in scope at that point
and lies outside the region treated here.
`updDelaySteps` is the per-synapse `delay_steps` assignment (lines 305-309):
`preSteps i` is the `steps` attribute of unit `i`. -/
def updDelaySteps (min_delay : ℚ) (preSteps : ℕ → ℤ)
    (syns : List synM) (delays : List ℚ) : List synM :=
  List.zipWith (fun (syn : synM) (d : ℚ) =>
    { syn with delay_steps := min (preSteps syn.preID - 1)
                                  (pyRound (d / min_delay)) }) syns delays

/-- The unit right before the resolution loop: the recomputed `syn_needs` and
the lazily created `functions` set (lines 311-331). -/
def prepUnit (u : unitM) (needs : Finset syn_reqs) : unitM :=
  { u with syn_needs := needs
           hasFunctions := true
           functions := if u.hasFunctions then u.functions else ∅ }

def init_pre_syn_update (min_delay sim_time : ℚ) (preSteps : ℕ → ℤ)
    (delays : List ℚ) (syns outgoing : List synM) (u : unitM) :
    Except String (unitM × List synM) :=
  if sim_time ≠ 0 then
    .error "Tried to run init_pre_syn_update when simulation time is not zero"
  else
    match resolveLoop (updDelaySteps min_delay preSteps syns delays)
        (computeNeeds u (updDelaySteps min_delay preSteps syns delays) outgoing)
        (reqOrder.filter (fun r =>
          r ∈ computeNeeds u (updDelaySteps min_delay preSteps syns delays) outgoing))
        (prepUnit u
          (computeNeeds u (updDelaySteps min_delay preSteps syns delays) outgoing)) with
    | .error e => .error e
    | .ok u2 => .ok (u2, updDelaySteps min_delay preSteps syns delays)

/-! Shared concrete instantiations of the randomness parameters -/

/-- A concrete `random.sample`: take the first `k` elements of the pool. -/
def takeSamp : List ℕ → ℕ → List ℕ := fun pool k => pool.take k

/-- A concrete `np.random.randint`: always draw the lower bound. -/
def rintConst : ℤ → ℤ → ℕ → List ℤ := fun a _ n => List.replicate n a

/-- A concrete `np.random.uniform`: always draw the lower bound. -/
def udrawConst : ℚ → ℚ → ℕ → List ℚ := fun low _ n => List.replicate n low

/-! C10: one_to_one with autapses disallowed silently filters -/

/-- Claim C10: with rule `one_to_one` and `allow_autapses` false, `connect`
silently filters out every zipped pair whose source equals its target: no
error is raised, and the number of connections created is the number of index
positions where `from_list` and `to_list` differ, which can be fewer than the
list length. -/
theorem C10_one_to_one_filters_autapses
    (from_list to_list : List ℕ) (samp : List ℕ → ℕ → List ℕ)
    (od ind : ℕ) (ds : delaySpec)
    (h : from_list.length = to_list.length) :
    connectionPairs ⟨"one_to_one", false, od, ind, ds⟩ from_list to_list samp
      = .ok ((from_list.zip to_list).filter (fun p => p.1 ≠ p.2))
    ∧ ((from_list.zip to_list).filter (fun p => p.1 ≠ p.2)).length
      = (from_list.zip to_list).countP (fun p => p.1 ≠ p.2) := by
  constructor
  · simp [connectionPairs, h]
  · exact (List.countP_eq_length_filter _ _).symm

/-- Witness for C10 at `from_list = [0,1,2]`, `to_list = [0,2,2]`: only the
middle position differs, so exactly one connection `(1, 2)` is created. -/
theorem C10_one_to_one_filters_autapses_witness :
    ([0,1,2] : List ℕ).length = ([0,2,2] : List ℕ).length
    ∧ connectionPairs ⟨"one_to_one", false, 0, 0, .scalar 1⟩ [0,1,2] [0,2,2] takeSamp
      = .ok ((([0,1,2] : List ℕ).zip [0,2,2]).filter (fun p => p.1 ≠ p.2)) :=
  ⟨by decide,
   (C10_one_to_one_filters_autapses [0,1,2] [0,2,2] takeSamp 0 0 (.scalar 1)
      (by decide)).1⟩

/-! C2: run composition -/

/-- Lemma: `netStep` does not change `min_delay`, so neither does its iterate. -/
theorem iterate_netStep_min_delay (adv : ℚ → S → S) (k : ℕ) (n : simNet S) :
    ((netStep adv)^[k] n).min_delay = n.min_delay := by
  induction k generalizing n with
  | zero => rfl
  | succ k ih => rw [Function.iterate_succ_apply, ih]; rfl

/-- The step count of a whole-multiple duration. -/
theorem pySteps_mul (a : ℕ) (d : ℚ) (hd : 0 < d) : pySteps (a * d) d = a := by
  unfold pySteps
  rw [mul_div_assoc, div_self (ne_of_gt hd), mul_one]
  simp

/-- Claim C2 (amended): for a deterministic network, `run(T1)` followed by
`run(T2)` reaches the same final state (`sim_time` and all mutable unit,
synapse and plant state) as a single `run(T1+T2)`, provided `T1` and `T2` are
non-negative integer multiples of `min_delay`.  For general durations the
truncations `int(T1/min_delay)` and `int(T2/min_delay)` can lose the
fractional parts that a single `run(T1+T2)` would accumulate, see the
counterexample. -/
theorem C2_run_composition {S : Type} (adv : ℚ → S → S) (n : simNet S)
    (a b : ℕ) (T1 T2 : ℚ)
    (hd : 0 < n.min_delay)
    (h1 : T1 = a * n.min_delay) (h2 : T2 = b * n.min_delay) :
    runNet adv T2 (runNet adv T1 n) = runNet adv (T1 + T2) n := by
  unfold runNet
  rw [iterate_netStep_min_delay]
  rw [h1, h2, ← add_mul]
  rw [pySteps_mul a _ hd, pySteps_mul b _ hd]
  rw [show ((a : ℚ) + b) = ((a + b : ℕ) : ℚ) by push_cast; ring]
  rw [pySteps_mul (a + b) _ hd]
  rw [← Function.iterate_add_apply, Nat.add_comm]

/-- Witness for C2 at `min_delay = 1`, `T1 = 2`, `T2 = 1`, with the
deterministic update that increments the state. -/
theorem C2_run_composition_witness :
    (0 : ℚ) < (simNet.mk 1 0 (0 : ℚ)).min_delay
    ∧ runNet (fun _ x => x + 1) 1 (runNet (fun _ x => x + 1) 2 (simNet.mk 1 0 (0 : ℚ)))
      = runNet (fun _ x => x + 1) (2 + 1) (simNet.mk 1 0 (0 : ℚ)) :=
  ⟨by norm_num,
   C2_run_composition (fun _ x => x + 1) (simNet.mk 1 0 (0 : ℚ)) 2 1 2 1
     (by norm_num) (by norm_num) (by norm_num)⟩

/-- Counterexample to C2 as stated: with `min_delay = 1` and the non-negative
durations `T1 = T2 = 7/10`, each separate run executes
`int(0.7/1) = 0` steps while the single run executes `int(1.4/1) = 1` step,
so the final states differ (`sim_time` is 0 versus 1). -/
theorem C2_counterexample :
    runNet (fun _ x => x + 1) (7/10) (runNet (fun _ x => x + 1) (7/10) (simNet.mk 1 0 (0 : ℚ)))
      ≠ runNet (fun _ x => x + 1) (7/10 + 7/10) (simNet.mk 1 0 (0 : ℚ)) := by
  have h1 : pySteps (7/10) (1 : ℚ) = 0 := by unfold pySteps; norm_num
  have h2 : pySteps (7/10 + 7/10) (1 : ℚ) = 1 := by unfold pySteps; norm_num
  intro h
  have hs := congrArg simNet.sim_time h
  unfold runNet at hs
  rw [iterate_netStep_min_delay] at hs
  simp only [show (simNet.mk 1 0 (0 : ℚ)).min_delay = 1 from rfl, h1, h2] at hs
  simp [netStep] at hs

/-! C8: wiring mutations require sim_time == 0 -/

/-- Claim C8: creating units, creating plants, (re)initializing a buffer and
re-running requirement resolution all guard on `sim_time == 0`: once the
simulation has advanced (`sim_time > 0`) each of them raises instead of
silently doing nothing. -/
theorem C8_wiring_requires_time_zero
    (st : ℚ) (hst : 0 < st)
    (net : Wnet) (n np m : ℕ) (hn : 0 < n)
    (md delay c : ℚ) (mb : ℕ)
    (preSteps : ℕ → ℤ) (delays : List ℚ) (syns outgoing : List synM) (u : unitM) :
    createUnits net st n
      = .error "Units are being created when the simulation time is not zero"
    ∧ createPlant st np m
      = .error "A plant is being created when the simulation time is not zero"
    ∧ initBuffers st md mb delay c
      = .error "Buffers are being reset when the simulation time is not zero"
    ∧ init_pre_syn_update md st preSteps delays syns outgoing u
      = .error "Tried to run init_pre_syn_update when simulation time is not zero" := by
  have hne : st ≠ 0 := ne_of_gt hst
  refine ⟨?_, ?_, ?_, ?_⟩
  · simp [createUnits, hn, hne]
  · simp [createPlant, hne]
  · simp [initBuffers, hne]
  · simp [init_pre_syn_update, hne]

/-- Witness for C8 at `sim_time = 1`. -/
theorem C8_wiring_requires_time_zero_witness :
    createUnits (Wnet.mk 0 1 [] [] [] []) 1 1
      = .error "Units are being created when the simulation time is not zero"
    ∧ createPlant 1 0 1
      = .error "A plant is being created when the simulation time is not zero" :=
  ⟨(C8_wiring_requires_time_zero 1 (by norm_num) (Wnet.mk 0 1 [] [] [] []) 1 0 1
      (by norm_num) 1 1 0 2 (fun _ => 2) [] [] []
      (unitM.mk 0 0 none none none ∅ false ∅ none none none none none none none
        none none none none none none none)).1,
   (C8_wiring_requires_time_zero 1 (by norm_num) (Wnet.mk 0 1 [] [] [] []) 1 0 1
      (by norm_num) 1 1 0 2 (fun _ => 2) [] [] []
      (unitM.mk 0 0 none none none ∅ false ∅ none none none none none none none
        none none none none none none none)).2.1⟩

/-! C7: the freshly initialized buffer samples to init_val -/

/-- Lemma: `getD` of a constant list at an in-range index. -/
theorem getD_replicate_of_lt (n i : ℕ) (c : ℚ) (h : i < n) :
    (List.replicate n c).getD i 0 = c := by
  rw [List.getD_eq_getElem?_getD]
  simp [List.getElem?_replicate, h]

/-- Lemma: `get_act` on a buffer of at least two slots that all hold `c` returns `c`
at every query time: both interpolation anchors are `c`. -/
theorem getAct_const_buffer (st : bufState) (c t : ℚ)
    (hbuf : st.buffer = List.replicate st.buff_size.toNat c)
    (hh : 2 ≤ st.buff_size) : getAct st t = c := by
  simp only [getAct]
  rw [hbuf]
  set base : ℤ := ⌊(t - st.times.getD 0 0) / st.time_bit⌋ with hbdef
  have hub : max 0 (min base (st.buff_size - 2)) ≤ st.buff_size - 2 :=
    max_le (by omega) (min_le_right _ _)
  have hlb : (0:ℤ) ≤ max 0 (min base (st.buff_size - 2)) := le_max_left _ _
  rw [getD_replicate_of_lt _ _ _ (by omega), getD_replicate_of_lt _ _ _ (by omega)]
  ring

/-- Claim C7: immediately after `init_buffers`, `get_act t` returns the
unit's initial value for every `t` in `[-delay, 0]`: the buffer holds
`init_val` in every slot and `times` spans `[-delay, 0]`, so the linear
interpolation between any two anchors yields `init_val`.  `hsz` states that
the buffer has at least two entries (`steps ≥ 1` and `min_buff_size ≥ 2` in
any real configuration), which the clamped index arithmetic of `get_act`
assumes. -/
theorem C7_fresh_buffer_samples_init_val
    (min_delay delay c t : ℚ) (mb : ℕ) (st : bufState)
    (hok : initBuffers 0 min_delay mb delay c = .ok st)
    (hsz : 2 ≤ pyRound (delay / min_delay) * (mb : ℤ))
    (ht1 : -delay ≤ t) (ht2 : t ≤ 0) :
    getAct st t = c := by
  rw [initBuffers, if_neg (by simp : ¬ ((0:ℚ) ≠ 0))] at hok
  injection hok with hok
  subst hok
  exact getAct_const_buffer _ c t rfl hsz

/-- Extract the payload of a successful `Except` computation. -/
def exOk (e : Except String α) (dflt : α) : α :=
  match e with
  | .ok a => a
  | .error _ => dflt

/-- An arbitrary fallback buffer state for `exOk`. -/
def bufDflt : bufState := ⟨0, 0, 0, [], [], 0, 0⟩

/-- Witness for C7: `min_delay = 1`, `min_buff_size = 10`, `delay = 2`,
`init_val = 3`, sampled at `t = -1`. -/
theorem C7_fresh_buffer_samples_init_val_witness :
    initBuffers 0 1 10 2 3 = .ok (exOk (initBuffers 0 1 10 2 3) bufDflt)
    ∧ getAct (exOk (initBuffers 0 1 10 2 3) bufDflt) (-1) = 3 :=
  ⟨rfl,
   C7_fresh_buffer_samples_init_val 1 2 3 (-1) 10 _ rfl
     (by norm_num [pyRound]) (by norm_num) (by norm_num)⟩

/-! C9: connect mutates the caller's syn_spec dictionary -/

/-- Claim C9: the wiring loop of `connect` (lines 292-301) binds
`syn_params` to the caller's `syn_spec` dictionary without copying, so after
wiring `n ≥ 1` connections the dictionary holds `preID`, `postID` and
`inp_port` of the last connection created, and its `init_w` entry has been
overwritten with the last connection's assigned weight; a later `connect`
call reusing the dictionary therefore no longer sees the originally supplied
values. -/
theorem C9_connect_mutates_syn_spec
    (md : ℚ) (l : List (ℕ × ℕ × ℚ × ℚ × ℕ)) (hl : l ≠ [])
    (net : Wnet) (ss : synSpecD) :
    (wireLoop md l net ss).2
      = { ss with preID := some (l.getLast hl).1
                  postID := some (l.getLast hl).2.1
                  init_w := .scalar (l.getLast hl).2.2.1
                  inp_port := some (l.getLast hl).2.2.2.2 } := by
  induction l generalizing net ss with
  | nil => exact absurd rfl hl
  | cons a t ih =>
    rcases a with ⟨s, tgt, w, d, p⟩
    cases t with
    | nil => rfl
    | cons b t2 =>
      show (wireLoop md (b :: t2) _ _).2 = _
      rw [ih (by simp)]
      rfl

/-- Witness for C9 on a two-connection wiring: the dictionary ends up with
the second connection's values. -/
theorem C9_connect_mutates_syn_spec_witness :
    (wireLoop 1 [(0, 1, 2, 3, 0), (1, 0, 5, 1, 4)]
        (Wnet.mk 2 1 [[], []] [[], []] [[], []] [1, 1])
        (synSpecD.mk 0 (.scalar 2) .absent none none none)).2
      = { synSpecD.mk 0 (.scalar 2) .absent none none none with
            preID := some 1, postID := some 0, init_w := .scalar 5,
            inp_port := some 4 } :=
  C9_connect_mutates_syn_spec 1 [(0, 1, 2, 3, 0), (1, 0, 5, 1, 4)] (by decide)
    (Wnet.mk 2 1 [[], []] [[], []] [[], []] [1, 1])
    (synSpecD.mk 0 (.scalar 2) .absent none none none)

/-! C6: the connection rules create exactly the prescribed pairs -/

/-- Filtering a tagged map by its tag keeps all or nothing. -/
theorem filter_fst_of_map (T : List ℕ) (u v : ℕ) :
    ((T.map (fun y => (v, y))).filter (fun p => p.1 = u))
      = if v = u then T.map (fun y => (v, y)) else [] := by
  induction T with
  | nil => simp
  | cons a t ih => by_cases h : v = u <;> simp [h, List.filter_cons, ih]

/-- Claim C6: `connect` creates exactly the connection set its rule
prescribes.  With `fixed_outdegree`, `from_list = [0,1,2]`,
`to_list = [0,1,2,3]`, `outdegree = 2` and autapses disallowed, each source
gets exactly 2 distinct non-self targets, 6 connections in total; with
`all_to_all` on the same lists and autapses allowed, exactly 12 connections;
with `one_to_one` on lists of different lengths, a configuration error is
raised.  The hypotheses on `samp` are the contract of `random.sample`:
a sample of `k` elements of the pool, without repetition when the pool has
none. -/
theorem C6_connection_rule_counts
    (samp : List ℕ → ℕ → List ℕ)
    (hlen : ∀ pool k, k ≤ pool.length → (samp pool k).length = k)
    (hnd : ∀ pool k, pool.Nodup → (samp pool k).Nodup)
    (hmem : ∀ pool k x, x ∈ samp pool k → x ∈ pool)
    (ind od : ℕ) (ds : delaySpec) :
    (∃ l, connectionPairs ⟨"fixed_outdegree", false, 2, ind, ds⟩ [0,1,2] [0,1,2,3] samp
        = .ok l
      ∧ l.length = 6
      ∧ (∀ p ∈ l, p.1 ≠ p.2 ∧ p.1 ∈ ([0,1,2] : List ℕ) ∧ p.2 ∈ ([0,1,2,3] : List ℕ))
      ∧ (∀ u ∈ ([0,1,2] : List ℕ), (l.filter (fun p => p.1 = u)).length = 2
          ∧ ((l.filter (fun p => p.1 = u)).map Prod.snd).Nodup))
    ∧ (∃ l, connectionPairs ⟨"all_to_all", true, od, ind, ds⟩ [0,1,2] [0,1,2,3] samp
        = .ok l ∧ l.length = 12)
    ∧ connectionPairs ⟨"one_to_one", false, od, ind, ds⟩ [0,1] [0,1,2] samp
        = .error "one_to_one connectivity requires equal number of sources and targets" := by
  have ka : connectionPairs ⟨"all_to_all", true, od, ind, ds⟩ [0,1,2] [0,1,2,3] samp
      = .ok (([0,1,2] : List ℕ).flatMap (fun x => ([0,1,2,3] : List ℕ).map (fun y => (x, y)))) := by
    simp [connectionPairs]
  have ko : connectionPairs ⟨"one_to_one", false, od, ind, ds⟩ [0,1] [0,1,2] samp
      = .error "one_to_one connectivity requires equal number of sources and targets" := by
    simp [connectionPairs]
  refine ⟨?_, ⟨_, ka, by decide⟩, ko⟩
  have key : connectionPairs ⟨"fixed_outdegree", false, 2, ind, ds⟩ [0,1,2] [0,1,2,3] samp
      = .ok ((samp [1,2,3] 2).map (fun y => (0, y))
          ++ (samp [0,2,3] 2).map (fun y => (1, y))
          ++ (samp [0,1,3] 2).map (fun y => (2, y))) := rfl
  refine ⟨_, key, ?_, ?_, ?_⟩
  · have e1 : (samp [1,2,3] 2).length = 2 := hlen _ _ (by decide)
    have e2 : (samp [0,2,3] 2).length = 2 := hlen _ _ (by decide)
    have e3 : (samp [0,1,3] 2).length = 2 := hlen _ _ (by decide)
    simp [e1, e2, e3]
  · intro p hp
    rcases List.mem_append.mp hp with hp' | h3
    · rcases List.mem_append.mp hp' with h1 | h2
      · obtain ⟨y, hy, rfl⟩ := List.mem_map.mp h1
        have hym := hmem _ _ _ hy
        simp only [List.mem_cons, List.not_mem_nil, or_false] at hym
        rcases hym with rfl | rfl | rfl <;> decide
      · obtain ⟨y, hy, rfl⟩ := List.mem_map.mp h2
        have hym := hmem _ _ _ hy
        simp only [List.mem_cons, List.not_mem_nil, or_false] at hym
        rcases hym with rfl | rfl | rfl <;> decide
    · obtain ⟨y, hy, rfl⟩ := List.mem_map.mp h3
      have hym := hmem _ _ _ hy
      simp only [List.mem_cons, List.not_mem_nil, or_false] at hym
      rcases hym with rfl | rfl | rfl <;> decide
  · intro u hu
    have hfil : ∀ w, (((samp [1,2,3] 2).map (fun y => (0, y))
          ++ (samp [0,2,3] 2).map (fun y => (1, y))
          ++ (samp [0,1,3] 2).map (fun y => (2, y))).filter (fun p => p.1 = w))
        = (if 0 = w then (samp [1,2,3] 2).map (fun y => (0, y)) else [])
          ++ (if 1 = w then (samp [0,2,3] 2).map (fun y => (1, y)) else [])
          ++ (if 2 = w then (samp [0,1,3] 2).map (fun y => (2, y)) else []) := by
      intro w
      rw [List.filter_append, List.filter_append,
          filter_fst_of_map, filter_fst_of_map, filter_fst_of_map]
    have hsnd : ∀ (v : ℕ) (T : List ℕ), (T.map (fun y => (v, y))).map Prod.snd = T := by
      intro v T
      rw [List.map_map]
      simp [Function.comp]
    have e1 : (samp [1,2,3] 2).length = 2 := hlen _ _ (by decide)
    have e2 : (samp [0,2,3] 2).length = 2 := hlen _ _ (by decide)
    have e3 : (samp [0,1,3] 2).length = 2 := hlen _ _ (by decide)
    have n1 := hnd [1,2,3] 2 (by decide)
    have n2 := hnd [0,2,3] 2 (by decide)
    have n3 := hnd [0,1,3] 2 (by decide)
    simp only [List.mem_cons, List.not_mem_nil, or_false] at hu
    rcases hu with rfl | rfl | rfl <;> rw [hfil] <;>
      exact ⟨by simp [e1, e2, e3], by simp [hsnd, n1, n2, n3]⟩

/-- Witness for C6: instantiate the sampler with take-first-k, which
satisfies the `random.sample` contract. -/
theorem C6_connection_rule_counts_witness :
    (∃ l, connectionPairs ⟨"fixed_outdegree", false, 2, 0, .scalar 1⟩ [0,1,2] [0,1,2,3] takeSamp
        = .ok l
      ∧ l.length = 6
      ∧ (∀ p ∈ l, p.1 ≠ p.2 ∧ p.1 ∈ ([0,1,2] : List ℕ) ∧ p.2 ∈ ([0,1,2,3] : List ℕ))
      ∧ (∀ u ∈ ([0,1,2] : List ℕ), (l.filter (fun p => p.1 = u)).length = 2
          ∧ ((l.filter (fun p => p.1 = u)).map Prod.snd).Nodup))
    ∧ (∃ l, connectionPairs ⟨"all_to_all", true, 0, 0, .scalar 1⟩ [0,1,2] [0,1,2,3] takeSamp
        = .ok l ∧ l.length = 12)
    ∧ connectionPairs ⟨"one_to_one", false, 0, 0, .scalar 1⟩ [0,1] [0,1,2] takeSamp
        = .error "one_to_one connectivity requires equal number of sources and targets" :=
  C6_connection_rule_counts takeSamp
    (fun pool k hk => by simp [takeSamp, List.length_take, Nat.min_eq_left hk])
    (fun pool k hn => hn.sublist (List.take_sublist k pool))
    (fun pool k x hx => List.mem_of_mem_take hx)
    0 0 (.scalar 1)

/-! C3: intra-step ordering -/

/-- Every event in the sampling half of a step is a read. -/
theorem stepTrace_sample_half (nU nP : ℕ) (e : stepEv)
    (he : e ∈ (List.range nU).map stepEv.sampleUnit
            ++ (List.range nP).map stepEv.samplePlant) :
    e.isSample = true := by
  rcases List.mem_append.mp he with h | h <;>
    obtain ⟨y, _, rfl⟩ := List.mem_map.mp h <;> rfl

/-- Every event in the update half of a step is an integration. -/
theorem stepTrace_update_half (nU nP : ℕ) (e : stepEv)
    (he : e ∈ (List.range nU).map stepEv.updateUnit
            ++ (List.range nP).map stepEv.updatePlant) :
    e.isAdvance = true := by
  rcases List.mem_append.mp he with h | h <;>
    obtain ⟨y, _, rfl⟩ := List.mem_map.mp h <;> rfl

/-- Claim C3: within every simulation step of `run`, the current activity of
every unit and the current state of every plant are sampled and recorded
before any unit or plant begins integrating its dynamics forward; and within
each `unit.update` call, the activity buffer is rolled forward and refilled
before `pre_syn_update` runs, which in turn happens before any of the unit's
incoming synapses' update functions run. -/
theorem C3_sampling_before_integration :
    (∀ (nU nP i j : ℕ) (e f : stepEv), (stepTrace nU nP)[i]? = some e → (stepTrace nU nP)[j]? = some f →
        e.isSample = true → f.isAdvance = true → i < j)
    ∧ (∀ (nSyn i j : ℕ), (unitUpdateTrace nSyn)[i]? = some unitEv.rollBuffer →
        (unitUpdateTrace nSyn)[j]? = some unitEv.preSynUpd → i < j)
    ∧ (∀ (nSyn j k l : ℕ), (unitUpdateTrace nSyn)[j]? = some unitEv.preSynUpd →
        (unitUpdateTrace nSyn)[l]? = some (unitEv.synUpd k) → j < l) := by
  have hpre : ∀ (nSyn j : ℕ), (unitUpdateTrace nSyn)[j]? = some unitEv.preSynUpd → j = 2 := by
    intro nSyn j hj
    match j with
    | 0 => exact absurd hj (by simp [unitUpdateTrace])
    | 1 => exact absurd hj (by simp [unitUpdateTrace])
    | 2 => rfl
    | (m + 3) =>
        exfalso
        rw [unitUpdateTrace, List.getElem?_append_right (by simp)] at hj
        have hm := List.getElem?_mem hj
        rcases List.mem_append.mp hm with h | h
        · obtain ⟨y, _, h⟩ := List.mem_map.mp h
          exact absurd h (by simp)
        · simp at h
  refine ⟨?_, ?_, ?_⟩
  · intro nU nP i j e f hi hj hs hf
    have hslen : ((List.range nU).map stepEv.sampleUnit
        ++ (List.range nP).map stepEv.samplePlant).length = nU + nP := by simp
    have hilt : i < nU + nP := by
      by_contra hc
      push_neg at hc
      rw [stepTrace, List.getElem?_append_right (by rw [hslen]; exact hc)] at hi
      have := stepTrace_update_half nU nP e (List.getElem?_mem hi)
      cases e <;> simp_all [stepEv.isSample, stepEv.isAdvance]
    have hjge : nU + nP ≤ j := by
      by_contra hc
      push_neg at hc
      rw [stepTrace, List.getElem?_append_left (by rw [hslen]; exact hc)] at hj
      have := stepTrace_sample_half nU nP f (List.getElem?_mem hj)
      cases f <;> simp_all [stepEv.isSample, stepEv.isAdvance]
    omega
  · intro nSyn i j hi hj
    have hj2 := hpre nSyn j hj
    subst hj2
    match i with
    | 0 => exact absurd hi (by simp [unitUpdateTrace])
    | 1 => omega
    | 2 => exact absurd hi (by simp [unitUpdateTrace])
    | (m + 3) =>
        exfalso
        rw [unitUpdateTrace, List.getElem?_append_right (by simp)] at hi
        have hm := List.getElem?_mem hi
        rcases List.mem_append.mp hm with h | h
        · obtain ⟨y, _, h⟩ := List.mem_map.mp h
          exact absurd h (by simp)
        · simp at h
  · intro nSyn j k l hj hl
    have hj2 := hpre nSyn j hj
    subst hj2
    match l with
    | 0 => exact absurd hl (by simp [unitUpdateTrace])
    | 1 => exact absurd hl (by simp [unitUpdateTrace])
    | 2 => exact absurd hl (by simp [unitUpdateTrace])
    | (m + 3) => omega

/-- Witness for C3 on a network with one unit, one plant and one synapse:
the unit's sample at position 0 precedes its update at position 2, and in
`unit.update` the buffer refill (position 1) precedes `pre_syn_update`
(position 2), which precedes the synapse update (position 3). -/
theorem C3_sampling_before_integration_witness :
    (stepTrace 1 1)[0]? = some (stepEv.sampleUnit 0)
    ∧ (stepTrace 1 1)[2]? = some (stepEv.updateUnit 0)
    ∧ (unitUpdateTrace 1)[1]? = some unitEv.rollBuffer
    ∧ (unitUpdateTrace 1)[2]? = some unitEv.preSynUpd
    ∧ (unitUpdateTrace 1)[3]? = some (unitEv.synUpd 0)
    ∧ (0 : ℕ) < 2 ∧ (1 : ℕ) < 2 ∧ (2 : ℕ) < 3 :=
  ⟨by decide, by decide, by decide, by decide, by decide,
   C3_sampling_before_integration.1 1 1 0 2 (stepEv.sampleUnit 0) (stepEv.updateUnit 0)
     (by decide) (by decide) rfl rfl,
   C3_sampling_before_integration.2.1 1 1 2 (by decide) (by decide),
   C3_sampling_before_integration.2.2 1 2 0 3 (by decide) (by decide)⟩

/-! C1: delays drawn from the uniform spec are multiples of min_delay -/

/-- An element of `tbl.getD i []` comes from an entry of `tbl`. -/
theorem mem_getD_table (tbl : List (List ℚ)) (i : ℕ) (d : ℚ)
    (h : d ∈ tbl.getD i []) : ∃ tb ∈ tbl, d ∈ tb := by
  by_cases hi : i < tbl.length
  · rw [List.getD_eq_getElem tbl [] hi] at h
    exact ⟨tbl[i], List.getElem_mem hi, h⟩
  · rw [List.getD_eq_default tbl [] (by omega)] at h
    simp at h

/-- One wiring iteration preserves a property of all stored delays, provided
the appended delay has it. -/
theorem wireStep_delays (P : ℚ → Prop) (md : ℚ) (net : Wnet) (ss : synSpecD)
    (s t : ℕ) (w d : ℚ) (p : ℕ)
    (hd : P d) (hnet : ∀ tb ∈ net.delays, ∀ x ∈ tb, P x) :
    ∀ tb ∈ (wireStep md net ss s t w d p).1.delays, ∀ x ∈ tb, P x := by
  intro tb htb x hx
  simp only [wireStep, tmod] at htb
  rcases List.mem_or_eq_of_mem_set htb with h | rfl
  · exact hnet _ h _ hx
  · rcases List.mem_append.mp hx with h | h
    · obtain ⟨tb', htb', hxtb⟩ := mem_getD_table _ _ _ h
      exact hnet _ htb' _ hxtb
    · simp only [List.mem_cons, List.not_mem_nil, or_false] at h
      exact h ▸ hd

/-- The wiring loop preserves a property of all stored delays, provided every
appended delay has it. -/
theorem wireLoop_delays (P : ℚ → Prop) (md : ℚ) :
    ∀ (l : List (ℕ × ℕ × ℚ × ℚ × ℕ)) (net : Wnet) (ss : synSpecD),
      (∀ q ∈ l, P q.2.2.2.1) → (∀ tb ∈ net.delays, ∀ x ∈ tb, P x) →
      ∀ tb ∈ (wireLoop md l net ss).1.delays, ∀ x ∈ tb, P x := by
  intro l
  induction l with
  | nil => intro net ss _ hnet; exact hnet
  | cons q rest ih =>
      rcases q with ⟨s, t, w, d, p⟩
      intro net ss hq hnet
      exact ih _ _ (fun q hq' => hq q (List.mem_cons_of_mem _ hq'))
        (wireStep_delays P md net ss s t w d p (hq _ (List.mem_cons_self _ _)) hnet)

/-- The delay component of every zipped wiring record is an element of the
delay list. -/
theorem zipConn_delay_mem (conns : List (ℕ × ℕ)) (ws dz : List ℚ) (pz : List ℕ) :
    ∀ q ∈ zipConn conns ws dz pz, q.2.2.2.1 ∈ dz := by
  intro q hq
  obtain ⟨⟨⟨s, t⟩, w, d, p⟩, hmem, rfl⟩ := List.mem_map.mp hq
  exact (List.of_mem_zip ((List.of_mem_zip ((List.of_mem_zip hmem).2)).2)).1

/-- Every delay produced by the uniform branch of `makeDelayz` is a positive
integer multiple of `min_delay`. -/
theorem makeDelayz_uniform_mem (low high md : ℚ) (n : ℕ)
    (randint : ℤ → ℤ → ℕ → List ℤ)
    (hri : ∀ a b m, a < b → ∀ x ∈ randint a b m, a ≤ x ∧ x < b)
    (dz : List ℚ) (hok : makeDelayz (.uniform low high) md n randint = .ok dz) :
    ∀ d ∈ dz, ∃ k : ℤ, 1 ≤ k ∧ d = k * md := by
  rw [makeDelayz] at hok
  split at hok
  · exact absurd hok (by simp)
  · next hlt =>
      injection hok with hok
      subst hok
      intro d hd
      obtain ⟨k, hk, rfl⟩ := List.mem_map.mp hd
      have hb := hri (max 1 (pyRound (low / md))) (max 1 (pyRound (high / md)) + 1) n
        (by omega) k hk
      have h1 : (1:ℤ) ≤ max 1 (pyRound (low / md)) := le_max_left _ _
      exact ⟨k, by omega, mul_comm md (k : ℚ)⟩

/-- Claim C1 (amended): when `conn_spec['delay']` is a uniform-distribution
dictionary, every delay that `connect` stores in a target's delay table is an
integer multiple of `min_delay` and at least one `min_delay` (given a table
that already satisfied this).  When the delay is given as a fixed scalar the
source stores the scalar verbatim, with no rounding and no flooring — see
the counterexample.  `hri` is the contract of `np.random.randint`. -/
theorem C1_uniform_delays_multiples
    (net : Wnet) (from_list to_list : List ℕ) (cs : connSpec) (ss : synSpecD)
    (samp : List ℕ → ℕ → List ℕ) (randint : ℤ → ℤ → ℕ → List ℤ)
    (udraw : ℚ → ℚ → ℕ → List ℚ) (low high : ℚ)
    (hspec : cs.delay = .uniform low high)
    (hmd : 0 < net.min_delay)
    (hri : ∀ a b m, a < b → ∀ x ∈ randint a b m, a ≤ x ∧ x < b)
    (hinv : ∀ tb ∈ net.delays, ∀ x ∈ tb,
      ∃ k : ℤ, 1 ≤ k ∧ x = k * net.min_delay ∧ net.min_delay ≤ x)
    (net' : Wnet) (ss' : synSpecD)
    (hok : connect net from_list to_list cs ss samp randint udraw = .ok (net', ss')) :
    ∀ tb ∈ net'.delays, ∀ x ∈ tb,
      ∃ k : ℤ, 1 ≤ k ∧ x = k * net.min_delay ∧ net.min_delay ≤ x := by
  rw [connect] at hok
  split at hok
  · exact absurd hok (by simp)
  · split at hok
    · exact absurd hok (by simp)
    · split at hok
      · exact absurd hok (by simp)
      · split at hok
        · exact absurd hok (by simp)
        · next delayz heq3 =>
            split at hok
            · exact absurd hok (by simp)
            · injection hok with hok
              have h1 := congrArg Prod.fst hok
              simp only at h1
              rw [hspec] at heq3
              have hdz := makeDelayz_uniform_mem low high net.min_delay _ randint hri
                delayz heq3
              rw [← h1]
              refine wireLoop_delays _ net.min_delay _ net ss ?_ hinv
              intro q hq
              obtain ⟨k, hk1, hk2⟩ := hdz _ (zipConn_delay_mem _ _ _ _ q hq)
              refine ⟨k, hk1, hk2, ?_⟩
              rw [hk2]
              calc net.min_delay = 1 * net.min_delay := (one_mul _).symm
                _ ≤ (k : ℚ) * net.min_delay := by
                    apply mul_le_mul_of_nonneg_right _ (le_of_lt hmd)
                    exact_mod_cast hk1

/-- A fresh two-unit network with `min_delay = 1` (unit `delay` attributes at
their default `2 * min_delay`). -/
def wNet1 : Wnet := ⟨2, 1, [[], []], [[], []], [[], []], [2, 2]⟩

/-- A `conn_spec` with a uniform delay distribution on `[1, 2]`. -/
def csU : connSpec := ⟨"one_to_one", true, 0, 0, .uniform 1 2⟩

/-- A `syn_spec` with scalar initial weight 3 and no declared ports. -/
def ssU : synSpecD := ⟨0, .scalar 3, .absent, none, none, none⟩

/-- Witness for C1: wiring one connection with the uniform delay spec on a
fresh network leaves only delays that are positive multiples of
`min_delay`. -/
theorem C1_uniform_delays_multiples_witness :
    connect wNet1 [0] [1] csU ssU takeSamp rintConst udrawConst
      = .ok (⟨2, 1, [[], [1]], [[], [0]], [[], [⟨0, 1, 3, 0⟩]], [2, 2]⟩,
             ⟨0, .scalar 3, .absent, some 0, some 1, some 0⟩)
    ∧ ∀ tb ∈ (Wnet.mk 2 1 [[], [1]] [[], [0]] [[], [⟨0, 1, 3, 0⟩]] [2, 2]).delays,
        ∀ x ∈ tb, ∃ k : ℤ, 1 ≤ k ∧ x = k * wNet1.min_delay ∧ wNet1.min_delay ≤ x := by
  have hok : connect wNet1 [0] [1] csU ssU takeSamp rintConst udrawConst
      = .ok (⟨2, 1, [[], [1]], [[], [0]], [[], [⟨0, 1, 3, 0⟩]], [2, 2]⟩,
             ⟨0, .scalar 3, .absent, some 0, some 1, some 0⟩) := by
    have hp1 : pyRound (1:ℚ) = 1 := by norm_num [pyRound]
    have hp2 : pyRound (2:ℚ) = 2 := by norm_num [pyRound]
    simp [connect, connectionPairs, makeWeights, makeDelayz, makePortz, wNet1, csU, ssU,
          hp1, hp2, rintConst, zipConn, wireLoop, wireStep, tmod, takeSamp, List.getD]
  refine ⟨hok, ?_⟩
  exact C1_uniform_delays_multiples wNet1 [0] [1] csU ssU takeSamp rintConst udrawConst
    1 2 rfl (by norm_num [wNet1])
    (fun a b m hab x hx => by rw [List.eq_of_mem_replicate hx]; exact ⟨le_refl a, hab⟩)
    (by intro tb htb x hx
        simp only [wNet1, List.mem_cons, List.not_mem_nil, or_false] at htb
        rcases htb with rfl | rfl <;> simp at hx)
    _ _ hok

/-- A fresh two-unit network with `min_delay = 2`. -/
def wNet2 : Wnet := ⟨2, 2, [[], []], [[], []], [[], []], [4, 4]⟩

/-- A `conn_spec` with the fixed scalar delay `1`, smaller than `min_delay`. -/
def csS : connSpec := ⟨"one_to_one", true, 0, 0, .scalar 1⟩

/-- Counterexample to C1 as stated: with `min_delay = 2` and the fixed scalar
delay `1`, `connect` stores the delay `1` verbatim in the target's delay
table — the scalar branch performs no rounding to a multiple of `min_delay`
and no flooring at one `min_delay`, so the stored delay is smaller than one
`min_delay`. -/
theorem C1_scalar_delay_counterexample :
    connect wNet2 [0] [1] csS ssU takeSamp rintConst udrawConst
      = .ok (⟨2, 2, [[], [1]], [[], [0]], [[], [⟨0, 1, 3, 0⟩]], [4, 4]⟩,
             ⟨0, .scalar 3, .absent, some 0, some 1, some 0⟩)
    ∧ (1:ℚ) ∈ (Wnet.mk 2 2 [[], [1]] [[], [0]] [[], [⟨0, 1, 3, 0⟩]] [4, 4]).delays.getD 1 []
    ∧ ¬ (wNet2.min_delay ≤ (1:ℚ)) := by
  refine ⟨?_, by simp [List.getD], by norm_num [wNet2]⟩
  simp [connect, connectionPairs, makeWeights, makeDelayz, makePortz, wNet2, csS, ssU,
        rintConst, zipConn, wireLoop, wireStep, tmod, takeSamp, List.getD]

/-! C4/C5: properties of the resolution loop

Each arm of the loop writes fields no other arm reads, and the branch checks
read only `syn_needs`, the synapse list and the tau parameters, which no arm
writes.  The lemmas below make this precise: `reqApply` leaves the "input"
fields untouched, branch checks are invariant under `reqApply`, a successful
`resolveLoop` equals the pure fold `applyFold`, and each per-requirement
state field of `applyFold` is characterized by membership of its trigger in
the iterated list. -/

/-- The pure effect of the resolution loop once all checks pass. -/
def applyFold (syns : List synM) (L : List syn_reqs) (u : unitM) : unitM :=
  L.foldl (fun v r => reqApply syns r v) u

theorem applyFold_cons (syns : List synM) (a : syn_reqs) (t : List syn_reqs)
    (u : unitM) : applyFold syns (a :: t) u = applyFold syns t (reqApply syns a u) :=
  rfl

theorem reqApply_ID (syns : List synM) (a : syn_reqs) (u : unitM) :
    (reqApply syns a u).ID = u.ID := by cases a <;> rfl

theorem reqApply_init_val (syns : List synM) (a : syn_reqs) (u : unitM) :
    (reqApply syns a u).init_val = u.init_val := by cases a <;> rfl

theorem reqApply_tau_fast (syns : List synM) (a : syn_reqs) (u : unitM) :
    (reqApply syns a u).tau_fast = u.tau_fast := by cases a <;> rfl

theorem reqApply_tau_mid (syns : List synM) (a : syn_reqs) (u : unitM) :
    (reqApply syns a u).tau_mid = u.tau_mid := by cases a <;> rfl

theorem reqApply_tau_slow (syns : List synM) (a : syn_reqs) (u : unitM) :
    (reqApply syns a u).tau_slow = u.tau_slow := by cases a <;> rfl

theorem reqApply_syn_needs (syns : List synM) (a : syn_reqs) (u : unitM) :
    (reqApply syns a u).syn_needs = u.syn_needs := by cases a <;> rfl

theorem reqApply_hasFunctions (syns : List synM) (a : syn_reqs) (u : unitM) :
    (reqApply syns a u).hasFunctions = u.hasFunctions := by cases a <;> rfl

/-- Branch checks only read fields that `reqApply` never writes. -/
theorem reqCheck_apply (u : unitM) (syns syns2 : List synM)
    (needs : Finset syn_reqs) (r a : syn_reqs) :
    reqCheck (reqApply syns2 a u) syns needs r = reqCheck u syns needs r := by
  cases r <;>
    simp [reqCheck, reqApply_tau_fast, reqApply_tau_mid, reqApply_tau_slow]

theorem applyReqE_eq_ok (syns : List synM) (needs : Finset syn_reqs)
    (u : unitM) (r : syn_reqs) (h : reqCheck u syns needs r = true) :
    applyReqE syns needs u r = .ok (reqApply syns r u) := by
  simp [applyReqE, h]

theorem applyReqE_eq_err (syns : List synM) (needs : Finset syn_reqs)
    (u : unitM) (r : syn_reqs) (h : reqCheck u syns needs r = false) :
    applyReqE syns needs u r = .error (reqErrMsg r) := by
  simp [applyReqE, h]

theorem resolveLoop_cons (syns : List synM) (needs : Finset syn_reqs)
    (a : syn_reqs) (t : List syn_reqs) (u : unitM) :
    resolveLoop syns needs (a :: t) u
      = (applyReqE syns needs u a) >>= fun v => resolveLoop syns needs t v :=
  rfl

/-- If every requirement in the list passes its check, the loop succeeds and
equals the pure fold. -/
theorem resolveLoop_ok_of_checks (syns : List synM) (needs : Finset syn_reqs) :
    ∀ (L : List syn_reqs) (u : unitM),
      (∀ r ∈ L, reqCheck u syns needs r = true) →
      resolveLoop syns needs L u = .ok (applyFold syns L u) := by
  intro L
  induction L with
  | nil => intro u _; rfl
  | cons a t ih =>
      intro u hc
      rw [resolveLoop_cons, applyReqE_eq_ok syns needs u a (hc a (List.mem_cons_self a t))]
      show resolveLoop syns needs t (reqApply syns a u)
        = .ok (applyFold syns t (reqApply syns a u))
      exact ih _ (fun r hr => by
        rw [reqCheck_apply]; exact hc r (List.mem_cons_of_mem a hr))

/-- Conversely, a successful loop means every check passed and the result is
the pure fold. -/
theorem resolveLoop_ok_elim (syns : List synM) (needs : Finset syn_reqs) :
    ∀ (L : List syn_reqs) (u w : unitM),
      resolveLoop syns needs L u = .ok w →
      (∀ r ∈ L, reqCheck u syns needs r = true) ∧ w = applyFold syns L u := by
  intro L
  induction L with
  | nil =>
      intro u w h
      refine ⟨by simp, ?_⟩
      injection h with h
      exact h.symm
  | cons a t ih =>
      intro u w h
      rw [resolveLoop_cons] at h
      by_cases hc : reqCheck u syns needs a = true
      · rw [applyReqE_eq_ok syns needs u a hc] at h
        have h2 : resolveLoop syns needs t (reqApply syns a u) = .ok w := h
        obtain ⟨hcs, hw⟩ := ih _ _ h2
        refine ⟨?_, hw⟩
        intro r hr
        rcases List.mem_cons.mp hr with rfl | hr2
        · exact hc
        · rw [← reqCheck_apply u syns syns needs r a]
          exact hcs r hr2
      · rw [applyReqE_eq_err syns needs u a (Bool.eq_false_iff.mpr hc)] at h
        exact Except.noConfusion (h : Except.error (reqErrMsg a) = Except.ok w)

theorem applyFold_ID (syns : List synM) :
    ∀ (L : List syn_reqs) (u : unitM), (applyFold syns L u).ID = u.ID := by
  intro L
  induction L with
  | nil => intro u; rfl
  | cons a t ih => intro u; rw [applyFold_cons, ih, reqApply_ID]

theorem applyFold_init_val (syns : List synM) :
    ∀ (L : List syn_reqs) (u : unitM), (applyFold syns L u).init_val = u.init_val := by
  intro L
  induction L with
  | nil => intro u; rfl
  | cons a t ih => intro u; rw [applyFold_cons, ih, reqApply_init_val]

theorem applyFold_tau_fast (syns : List synM) :
    ∀ (L : List syn_reqs) (u : unitM), (applyFold syns L u).tau_fast = u.tau_fast := by
  intro L
  induction L with
  | nil => intro u; rfl
  | cons a t ih => intro u; rw [applyFold_cons, ih, reqApply_tau_fast]

theorem applyFold_tau_mid (syns : List synM) :
    ∀ (L : List syn_reqs) (u : unitM), (applyFold syns L u).tau_mid = u.tau_mid := by
  intro L
  induction L with
  | nil => intro u; rfl
  | cons a t ih => intro u; rw [applyFold_cons, ih, reqApply_tau_mid]

theorem applyFold_tau_slow (syns : List synM) :
    ∀ (L : List syn_reqs) (u : unitM), (applyFold syns L u).tau_slow = u.tau_slow := by
  intro L
  induction L with
  | nil => intro u; rfl
  | cons a t ih => intro u; rw [applyFold_cons, ih, reqApply_tau_slow]

theorem applyFold_syn_needs (syns : List synM) :
    ∀ (L : List syn_reqs) (u : unitM), (applyFold syns L u).syn_needs = u.syn_needs := by
  intro L
  induction L with
  | nil => intro u; rfl
  | cons a t ih => intro u; rw [applyFold_cons, ih, reqApply_syn_needs]

theorem applyFold_hasFunctions (syns : List synM) :
    ∀ (L : List syn_reqs) (u : unitM),
      (applyFold syns L u).hasFunctions = u.hasFunctions := by
  intro L
  induction L with
  | nil => intro u; rfl
  | cons a t ih => intro u; rw [applyFold_cons, ih, reqApply_hasFunctions]


theorem reqApply_lpf_fast (syns : List synM) (a : syn_reqs) (u : unitM) :
    (reqApply syns a u).lpf_fast = if a = syn_reqs.lpf_fast then some u.init_val else u.lpf_fast := by
  cases a <;> simp [reqApply]

theorem applyFold_lpf_fast (syns : List synM) :
    ∀ (L : List syn_reqs) (u : unitM),
      (applyFold syns L u).lpf_fast
        = if syn_reqs.lpf_fast ∈ L then some u.init_val else u.lpf_fast := by
  intro L
  induction L with
  | nil => intro u; simp [applyFold]
  | cons a t2 ih =>
      intro u
      rw [applyFold_cons, ih, reqApply_lpf_fast]
      rw [reqApply_init_val]
      by_cases ha : a = syn_reqs.lpf_fast
      · subst ha
        by_cases hm : syn_reqs.lpf_fast ∈ t2 <;> simp [List.mem_cons, hm]
      · have ha2 : ¬ (syn_reqs.lpf_fast = a) := fun hh => ha hh.symm
        by_cases hm : syn_reqs.lpf_fast ∈ t2 <;> simp [List.mem_cons, ha, ha2, hm]

theorem reqApply_lpf_mid (syns : List synM) (a : syn_reqs) (u : unitM) :
    (reqApply syns a u).lpf_mid = if a = syn_reqs.lpf_mid then some u.init_val else u.lpf_mid := by
  cases a <;> simp [reqApply]

theorem applyFold_lpf_mid (syns : List synM) :
    ∀ (L : List syn_reqs) (u : unitM),
      (applyFold syns L u).lpf_mid
        = if syn_reqs.lpf_mid ∈ L then some u.init_val else u.lpf_mid := by
  intro L
  induction L with
  | nil => intro u; simp [applyFold]
  | cons a t2 ih =>
      intro u
      rw [applyFold_cons, ih, reqApply_lpf_mid]
      rw [reqApply_init_val]
      by_cases ha : a = syn_reqs.lpf_mid
      · subst ha
        by_cases hm : syn_reqs.lpf_mid ∈ t2 <;> simp [List.mem_cons, hm]
      · have ha2 : ¬ (syn_reqs.lpf_mid = a) := fun hh => ha hh.symm
        by_cases hm : syn_reqs.lpf_mid ∈ t2 <;> simp [List.mem_cons, ha, ha2, hm]

theorem reqApply_lpf_slow (syns : List synM) (a : syn_reqs) (u : unitM) :
    (reqApply syns a u).lpf_slow = if a = syn_reqs.lpf_slow then some u.init_val else u.lpf_slow := by
  cases a <;> simp [reqApply]

theorem applyFold_lpf_slow (syns : List synM) :
    ∀ (L : List syn_reqs) (u : unitM),
      (applyFold syns L u).lpf_slow
        = if syn_reqs.lpf_slow ∈ L then some u.init_val else u.lpf_slow := by
  intro L
  induction L with
  | nil => intro u; simp [applyFold]
  | cons a t2 ih =>
      intro u
      rw [applyFold_cons, ih, reqApply_lpf_slow]
      rw [reqApply_init_val]
      by_cases ha : a = syn_reqs.lpf_slow
      · subst ha
        by_cases hm : syn_reqs.lpf_slow ∈ t2 <;> simp [List.mem_cons, hm]
      · have ha2 : ¬ (syn_reqs.lpf_slow = a) := fun hh => ha hh.symm
        by_cases hm : syn_reqs.lpf_slow ∈ t2 <;> simp [List.mem_cons, ha, ha2, hm]

theorem reqApply_sq_lpf_slow (syns : List synM) (a : syn_reqs) (u : unitM) :
    (reqApply syns a u).sq_lpf_slow = if a = syn_reqs.sq_lpf_slow then some u.init_val else u.sq_lpf_slow := by
  cases a <;> simp [reqApply]

theorem applyFold_sq_lpf_slow (syns : List synM) :
    ∀ (L : List syn_reqs) (u : unitM),
      (applyFold syns L u).sq_lpf_slow
        = if syn_reqs.sq_lpf_slow ∈ L then some u.init_val else u.sq_lpf_slow := by
  intro L
  induction L with
  | nil => intro u; simp [applyFold]
  | cons a t2 ih =>
      intro u
      rw [applyFold_cons, ih, reqApply_sq_lpf_slow]
      rw [reqApply_init_val]
      by_cases ha : a = syn_reqs.sq_lpf_slow
      · subst ha
        by_cases hm : syn_reqs.sq_lpf_slow ∈ t2 <;> simp [List.mem_cons, hm]
      · have ha2 : ¬ (syn_reqs.sq_lpf_slow = a) := fun hh => ha hh.symm
        by_cases hm : syn_reqs.sq_lpf_slow ∈ t2 <;> simp [List.mem_cons, ha, ha2, hm]

theorem reqApply_inp_vector (syns : List synM) (a : syn_reqs) (u : unitM) :
    (reqApply syns a u).inp_vector = if a = syn_reqs.inp_vector then some (List.replicate syns.length u.init_val) else u.inp_vector := by
  cases a <;> simp [reqApply]

theorem applyFold_inp_vector (syns : List synM) :
    ∀ (L : List syn_reqs) (u : unitM),
      (applyFold syns L u).inp_vector
        = if syn_reqs.inp_vector ∈ L then some (List.replicate syns.length u.init_val) else u.inp_vector := by
  intro L
  induction L with
  | nil => intro u; simp [applyFold]
  | cons a t2 ih =>
      intro u
      rw [applyFold_cons, ih, reqApply_inp_vector]
      rw [reqApply_init_val]
      by_cases ha : a = syn_reqs.inp_vector
      · subst ha
        by_cases hm : syn_reqs.inp_vector ∈ t2 <;> simp [List.mem_cons, hm]
      · have ha2 : ¬ (syn_reqs.inp_vector = a) := fun hh => ha hh.symm
        by_cases hm : syn_reqs.inp_vector ∈ t2 <;> simp [List.mem_cons, ha, ha2, hm]

theorem reqApply_inp_avg_st (syns : List synM) (a : syn_reqs) (u : unitM) :
    (reqApply syns a u).inp_avg_st = if a = syn_reqs.inp_avg then some (inpAvgVal syns) else u.inp_avg_st := by
  cases a <;> simp [reqApply]

theorem applyFold_inp_avg_st (syns : List synM) :
    ∀ (L : List syn_reqs) (u : unitM),
      (applyFold syns L u).inp_avg_st
        = if syn_reqs.inp_avg ∈ L then some (inpAvgVal syns) else u.inp_avg_st := by
  intro L
  induction L with
  | nil => intro u; simp [applyFold]
  | cons a t2 ih =>
      intro u
      rw [applyFold_cons, ih, reqApply_inp_avg_st]
      by_cases ha : a = syn_reqs.inp_avg
      · subst ha
        by_cases hm : syn_reqs.inp_avg ∈ t2 <;> simp [List.mem_cons, hm]
      · have ha2 : ¬ (syn_reqs.inp_avg = a) := fun hh => ha hh.symm
        by_cases hm : syn_reqs.inp_avg ∈ t2 <;> simp [List.mem_cons, ha, ha2, hm]

theorem reqApply_pos_inp_avg_st (syns : List synM) (a : syn_reqs) (u : unitM) :
    (reqApply syns a u).pos_inp_avg_st = if a = syn_reqs.pos_inp_avg then some (posInpAvgVal syns) else u.pos_inp_avg_st := by
  cases a <;> simp [reqApply]

theorem applyFold_pos_inp_avg_st (syns : List synM) :
    ∀ (L : List syn_reqs) (u : unitM),
      (applyFold syns L u).pos_inp_avg_st
        = if syn_reqs.pos_inp_avg ∈ L then some (posInpAvgVal syns) else u.pos_inp_avg_st := by
  intro L
  induction L with
  | nil => intro u; simp [applyFold]
  | cons a t2 ih =>
      intro u
      rw [applyFold_cons, ih, reqApply_pos_inp_avg_st]
      by_cases ha : a = syn_reqs.pos_inp_avg
      · subst ha
        by_cases hm : syn_reqs.pos_inp_avg ∈ t2 <;> simp [List.mem_cons, hm]
      · have ha2 : ¬ (syn_reqs.pos_inp_avg = a) := fun hh => ha hh.symm
        by_cases hm : syn_reqs.pos_inp_avg ∈ t2 <;> simp [List.mem_cons, ha, ha2, hm]

theorem reqApply_err_diff_st (syns : List synM) (a : syn_reqs) (u : unitM) :
    (reqApply syns a u).err_diff_st = if a = syn_reqs.err_diff then some (errDiffVal syns) else u.err_diff_st := by
  cases a <;> simp [reqApply]

theorem applyFold_err_diff_st (syns : List synM) :
    ∀ (L : List syn_reqs) (u : unitM),
      (applyFold syns L u).err_diff_st
        = if syn_reqs.err_diff ∈ L then some (errDiffVal syns) else u.err_diff_st := by
  intro L
  induction L with
  | nil => intro u; simp [applyFold]
  | cons a t2 ih =>
      intro u
      rw [applyFold_cons, ih, reqApply_err_diff_st]
      by_cases ha : a = syn_reqs.err_diff
      · subst ha
        by_cases hm : syn_reqs.err_diff ∈ t2 <;> simp [List.mem_cons, hm]
      · have ha2 : ¬ (syn_reqs.err_diff = a) := fun hh => ha hh.symm
        by_cases hm : syn_reqs.err_diff ∈ t2 <;> simp [List.mem_cons, ha, ha2, hm]

theorem reqApply_sc_inp_sum_st (syns : List synM) (a : syn_reqs) (u : unitM) :
    (reqApply syns a u).sc_inp_sum_st = if a = syn_reqs.sc_inp_sum then some (scInpSumVal syns) else u.sc_inp_sum_st := by
  cases a <;> simp [reqApply]

theorem applyFold_sc_inp_sum_st (syns : List synM) :
    ∀ (L : List syn_reqs) (u : unitM),
      (applyFold syns L u).sc_inp_sum_st
        = if syn_reqs.sc_inp_sum ∈ L then some (scInpSumVal syns) else u.sc_inp_sum_st := by
  intro L
  induction L with
  | nil => intro u; simp [applyFold]
  | cons a t2 ih =>
      intro u
      rw [applyFold_cons, ih, reqApply_sc_inp_sum_st]
      by_cases ha : a = syn_reqs.sc_inp_sum
      · subst ha
        by_cases hm : syn_reqs.sc_inp_sum ∈ t2 <;> simp [List.mem_cons, hm]
      · have ha2 : ¬ (syn_reqs.sc_inp_sum = a) := fun hh => ha hh.symm
        by_cases hm : syn_reqs.sc_inp_sum ∈ t2 <;> simp [List.mem_cons, ha, ha2, hm]

theorem reqApply_diff_avg_st (syns : List synM) (a : syn_reqs) (u : unitM) :
    (reqApply syns a u).diff_avg_st = if a = syn_reqs.diff_avg then some (diffAvgVal syns) else u.diff_avg_st := by
  cases a <;> simp [reqApply]

theorem applyFold_diff_avg_st (syns : List synM) :
    ∀ (L : List syn_reqs) (u : unitM),
      (applyFold syns L u).diff_avg_st
        = if syn_reqs.diff_avg ∈ L then some (diffAvgVal syns) else u.diff_avg_st := by
  intro L
  induction L with
  | nil => intro u; simp [applyFold]
  | cons a t2 ih =>
      intro u
      rw [applyFold_cons, ih, reqApply_diff_avg_st]
      by_cases ha : a = syn_reqs.diff_avg
      · subst ha
        by_cases hm : syn_reqs.diff_avg ∈ t2 <;> simp [List.mem_cons, hm]
      · have ha2 : ¬ (syn_reqs.diff_avg = a) := fun hh => ha hh.symm
        by_cases hm : syn_reqs.diff_avg ∈ t2 <;> simp [List.mem_cons, ha, ha2, hm]

theorem reqApply_lpf_mid_inp_sum (syns : List synM) (a : syn_reqs) (u : unitM) :
    (reqApply syns a u).lpf_mid_inp_sum = if a = syn_reqs.lpf_mid_inp_sum then some u.init_val else u.lpf_mid_inp_sum := by
  cases a <;> simp [reqApply]

theorem applyFold_lpf_mid_inp_sum (syns : List synM) :
    ∀ (L : List syn_reqs) (u : unitM),
      (applyFold syns L u).lpf_mid_inp_sum
        = if syn_reqs.lpf_mid_inp_sum ∈ L then some u.init_val else u.lpf_mid_inp_sum := by
  intro L
  induction L with
  | nil => intro u; simp [applyFold]
  | cons a t2 ih =>
      intro u
      rw [applyFold_cons, ih, reqApply_lpf_mid_inp_sum]
      rw [reqApply_init_val]
      by_cases ha : a = syn_reqs.lpf_mid_inp_sum
      · subst ha
        by_cases hm : syn_reqs.lpf_mid_inp_sum ∈ t2 <;> simp [List.mem_cons, hm]
      · have ha2 : ¬ (syn_reqs.lpf_mid_inp_sum = a) := fun hh => ha hh.symm
        by_cases hm : syn_reqs.lpf_mid_inp_sum ∈ t2 <;> simp [List.mem_cons, ha, ha2, hm]

theorem reqApply_n_erd (syns : List synM) (a : syn_reqs) (u : unitM) :
    (reqApply syns a u).n_erd = if a = syn_reqs.n_erd then some (nErdVal syns) else u.n_erd := by
  cases a <;> simp [reqApply]

theorem applyFold_n_erd (syns : List synM) :
    ∀ (L : List syn_reqs) (u : unitM),
      (applyFold syns L u).n_erd
        = if syn_reqs.n_erd ∈ L then some (nErdVal syns) else u.n_erd := by
  intro L
  induction L with
  | nil => intro u; simp [applyFold]
  | cons a t2 ih =>
      intro u
      rw [applyFold_cons, ih, reqApply_n_erd]
      by_cases ha : a = syn_reqs.n_erd
      · subst ha
        by_cases hm : syn_reqs.n_erd ∈ t2 <;> simp [List.mem_cons, hm]
      · have ha2 : ¬ (syn_reqs.n_erd = a) := fun hh => ha hh.symm
        by_cases hm : syn_reqs.n_erd ∈ t2 <;> simp [List.mem_cons, ha, ha2, hm]

theorem reqApply_balance_st (syns : List synM) (a : syn_reqs) (u : unitM) :
    (reqApply syns a u).balance_st = if a = syn_reqs.balance then some (balanceSt.mk (1/2) (1/2)) else u.balance_st := by
  cases a <;> simp [reqApply]

theorem applyFold_balance_st (syns : List synM) :
    ∀ (L : List syn_reqs) (u : unitM),
      (applyFold syns L u).balance_st
        = if syn_reqs.balance ∈ L then some (balanceSt.mk (1/2) (1/2)) else u.balance_st := by
  intro L
  induction L with
  | nil => intro u; simp [applyFold]
  | cons a t2 ih =>
      intro u
      rw [applyFold_cons, ih, reqApply_balance_st]
      by_cases ha : a = syn_reqs.balance
      · subst ha
        by_cases hm : syn_reqs.balance ∈ t2 <;> simp [List.mem_cons, hm]
      · have ha2 : ¬ (syn_reqs.balance = a) := fun hh => ha hh.symm
        by_cases hm : syn_reqs.balance ∈ t2 <;> simp [List.mem_cons, ha, ha2, hm]

theorem reqApply_exp_scale_st (syns : List synM) (a : syn_reqs) (u : unitM) :
    (reqApply syns a u).exp_scale_st = if a = syn_reqs.exp_scale then some (expScaleVal syns) else u.exp_scale_st := by
  cases a <;> simp [reqApply]

theorem applyFold_exp_scale_st (syns : List synM) :
    ∀ (L : List syn_reqs) (u : unitM),
      (applyFold syns L u).exp_scale_st
        = if syn_reqs.exp_scale ∈ L then some (expScaleVal syns) else u.exp_scale_st := by
  intro L
  induction L with
  | nil => intro u; simp [applyFold]
  | cons a t2 ih =>
      intro u
      rw [applyFold_cons, ih, reqApply_exp_scale_st]
      by_cases ha : a = syn_reqs.exp_scale
      · subst ha
        by_cases hm : syn_reqs.exp_scale ∈ t2 <;> simp [List.mem_cons, hm]
      · have ha2 : ¬ (syn_reqs.exp_scale = a) := fun hh => ha hh.symm
        by_cases hm : syn_reqs.exp_scale ∈ t2 <;> simp [List.mem_cons, ha, ha2, hm]

/-- The update closures registered by each arm (empty for `n_erd`, which
stores a static count, and for the `pre_` requirements, which never reach a
registering arm). -/
def reqFns : syn_reqs → Finset updFn
  | .lpf_fast => {updFn.upd_lpf_fast}
  | .lpf_mid => {updFn.upd_lpf_mid}
  | .lpf_slow => {updFn.upd_lpf_slow}
  | .sq_lpf_slow => {updFn.upd_sq_lpf_slow}
  | .inp_vector => {updFn.upd_inp_vector}
  | .inp_avg => {updFn.upd_inp_avg}
  | .pos_inp_avg => {updFn.upd_pos_inp_avg}
  | .err_diff => {updFn.upd_err_diff}
  | .sc_inp_sum => {updFn.upd_sc_inp_sum}
  | .diff_avg => {updFn.upd_diff_avg}
  | .lpf_mid_inp_sum => {updFn.upd_lpf_mid_inp_sum}
  | .n_erd => ∅
  | .balance => {updFn.upd_balance}
  | .exp_scale => {updFn.upd_exp_scale}
  | .slide_thresh => {updFn.upd_thresh}
  | .pre_lpf_fast => ∅
  | .pre_lpf_mid => ∅
  | .pre_lpf_slow => ∅

theorem reqApply_functions (syns : List synM) (a : syn_reqs) (u : unitM) :
    (reqApply syns a u).functions = u.functions ∪ reqFns a := by
  cases a <;> simp [reqApply, reqFns, Finset.insert_eq, Finset.union_comm]

/-- The closures registered over a whole list of requirements. -/
def fnsOfList : List syn_reqs → Finset updFn
  | [] => ∅
  | a :: t => reqFns a ∪ fnsOfList t

theorem applyFold_functions (syns : List synM) :
    ∀ (L : List syn_reqs) (u : unitM),
      (applyFold syns L u).functions = u.functions ∪ fnsOfList L := by
  intro L
  induction L with
  | nil => intro u; simp [applyFold, fnsOfList]
  | cons a t ih =>
      intro u
      rw [applyFold_cons, ih, reqApply_functions,
          show fnsOfList (a :: t) = reqFns a ∪ fnsOfList t from rfl,
          Finset.union_assoc]

/-- Re-running the pure resolution fold changes nothing: every arm's
assignments are functions of the synapse list and `init_val` only, and the
`functions` set absorbs re-insertion. -/
theorem applyFold_idem (syns : List synM) (L : List syn_reqs) (u : unitM) :
    applyFold syns L (applyFold syns L u) = applyFold syns L u := by
  apply unitM.ext <;>
    simp only [applyFold_ID, applyFold_init_val, applyFold_tau_fast, applyFold_tau_mid,
          applyFold_tau_slow, applyFold_syn_needs, applyFold_hasFunctions,
          applyFold_functions, applyFold_lpf_fast, applyFold_lpf_mid,
          applyFold_lpf_slow, applyFold_sq_lpf_slow, applyFold_inp_vector,
          applyFold_inp_avg_st, applyFold_pos_inp_avg_st, applyFold_err_diff_st,
          applyFold_sc_inp_sum_st, applyFold_diff_avg_st, applyFold_lpf_mid_inp_sum,
          applyFold_n_erd, applyFold_balance_st, applyFold_exp_scale_st,
          Finset.union_assoc, Finset.union_self] <;>
    (try split_ifs) <;>
    (try rfl)

theorem mem_unionFold (x : syn_reqs) :
    ∀ (syns : List synM) (init : Finset syn_reqs),
      (x ∈ syns.foldl (fun s syn => s ∪ syn.upd_requirements) init)
        ↔ x ∈ init ∨ ∃ s ∈ syns, x ∈ s.upd_requirements := by
  intro syns
  induction syns with
  | nil => intro init; simp
  | cons a t ih =>
      intro init
      rw [List.foldl_cons, ih]
      simp [List.exists_mem_cons_iff, Finset.mem_union, or_assoc]

theorem mem_outStep (x : syn_reqs) (s : Finset syn_reqs) (syn : synM) :
    x ∈ outStep s syn
      ↔ x ∈ s ∨ (x = syn_reqs.lpf_fast ∧ syn_reqs.pre_lpf_fast ∈ syn.upd_requirements)
        ∨ (x = syn_reqs.lpf_mid ∧ syn_reqs.pre_lpf_mid ∈ syn.upd_requirements)
        ∨ (x = syn_reqs.lpf_slow ∧ syn_reqs.pre_lpf_slow ∈ syn.upd_requirements) := by
  unfold outStep
  split_ifs <;> simp_all [Finset.mem_insert] <;> tauto

theorem mem_outFold (x : syn_reqs) :
    ∀ (outg : List synM) (init : Finset syn_reqs),
      x ∈ outg.foldl outStep init
        ↔ x ∈ init
          ∨ (x = syn_reqs.lpf_fast ∧ ∃ s ∈ outg, syn_reqs.pre_lpf_fast ∈ s.upd_requirements)
          ∨ (x = syn_reqs.lpf_mid ∧ ∃ s ∈ outg, syn_reqs.pre_lpf_mid ∈ s.upd_requirements)
          ∨ (x = syn_reqs.lpf_slow ∧ ∃ s ∈ outg, syn_reqs.pre_lpf_slow ∈ s.upd_requirements) := by
  intro outg
  induction outg with
  | nil => intro init; simp
  | cons a t ih =>
      intro init
      rw [List.foldl_cons, ih, mem_outStep]
      simp only [List.exists_mem_cons_iff, and_or_left]
      itauto

theorem mem_computeNeeds (x : syn_reqs) (u : unitM) (syns outgoing : List synM) :
    x ∈ computeNeeds u syns outgoing
      ↔ ((x ∈ u.syn_needs ∨ ∃ s ∈ syns, x ∈ s.upd_requirements) ∧ x ∉ pre_reqs)
        ∨ (x = syn_reqs.lpf_fast ∧ ∃ s ∈ outgoing, syn_reqs.pre_lpf_fast ∈ s.upd_requirements)
        ∨ (x = syn_reqs.lpf_mid ∧ ∃ s ∈ outgoing, syn_reqs.pre_lpf_mid ∈ s.upd_requirements)
        ∨ (x = syn_reqs.lpf_slow ∧ ∃ s ∈ outgoing, syn_reqs.pre_lpf_slow ∈ s.upd_requirements) := by
  unfold computeNeeds
  rw [mem_outFold, Finset.mem_sdiff, mem_unionFold]

/-- Recomputing `syn_needs` from an already recomputed set is stable: the
incoming requirements are already included, the `pre_` names are already
removed, and the outgoing-implied `lpf_` names are already present. -/
theorem computeNeeds_stable (u v : unitM) (syns outgoing : List synM)
    (hv : v.syn_needs = computeNeeds u syns outgoing) :
    computeNeeds v syns outgoing = computeNeeds u syns outgoing := by
  ext x
  rw [mem_computeNeeds, mem_computeNeeds, hv, mem_computeNeeds]
  have himp1 : x = syn_reqs.lpf_fast → x ∉ pre_reqs := fun h => by subst h; decide
  have himp2 : x = syn_reqs.lpf_mid → x ∉ pre_reqs := fun h => by subst h; decide
  have himp3 : x = syn_reqs.lpf_slow → x ∉ pre_reqs := fun h => by subst h; decide
  itauto

/-- Reassigning `delay_steps` a second time writes the same values: the
assigned value depends only on `preID` and the stored delay, not on the
previous `delay_steps`. -/
theorem updDelaySteps_idem (min_delay : ℚ) (preSteps : ℕ → ℤ) :
    ∀ (syns : List synM) (delays : List ℚ),
      updDelaySteps min_delay preSteps (updDelaySteps min_delay preSteps syns delays) delays
        = updDelaySteps min_delay preSteps syns delays := by
  intro syns
  induction syns with
  | nil => intro delays; rfl
  | cons a t ih =>
      intro delays
      cases delays with
      | nil => rfl
      | cons d ds =>
          show _ :: updDelaySteps min_delay preSteps (updDelaySteps min_delay preSteps t ds) ds
              = _ :: updDelaySteps min_delay preSteps t ds
          rw [ih]

/-- Every requirement name appears in the canonical iteration order. -/
theorem mem_reqOrder (r : syn_reqs) : r ∈ reqOrder := by
  cases r <;> decide

/-- Branch checks depend on the unit only through its tau parameters. -/
theorem reqCheck_congr (u v : unitM) (syns : List synM) (needs : Finset syn_reqs)
    (r : syn_reqs) (h1 : u.tau_fast = v.tau_fast) (h2 : u.tau_mid = v.tau_mid)
    (h3 : u.tau_slow = v.tau_slow) :
    reqCheck u syns needs r = reqCheck v syns needs r := by
  cases r <;> simp [reqCheck, h1, h2, h3]

/-- Claim C4: for the prerequisite pairs of the requirement table
(`lpf_mid_inp_sum` requires `inp_vector`, `balance` requires `inp_vector`,
`exp_scale` requires `balance`), whenever `init_pre_syn_update` completes
without raising, a requirement's presence in the unit's active set
`syn_needs` implies its prerequisite's presence: the loop checks every
member of `syn_needs` against the full set and raises a dependency error at
wiring time otherwise. -/
theorem C4_prerequisite_closure
    (md st : ℚ) (preSteps : ℕ → ℤ) (delays : List ℚ) (syns outgoing : List synM)
    (u u2 : unitM) (syns2 : List synM)
    (hok : init_pre_syn_update md st preSteps delays syns outgoing u = .ok (u2, syns2)) :
    (syn_reqs.lpf_mid_inp_sum ∈ u2.syn_needs → syn_reqs.inp_vector ∈ u2.syn_needs)
    ∧ (syn_reqs.balance ∈ u2.syn_needs → syn_reqs.inp_vector ∈ u2.syn_needs)
    ∧ (syn_reqs.exp_scale ∈ u2.syn_needs → syn_reqs.balance ∈ u2.syn_needs) := by
  rw [init_pre_syn_update] at hok
  split at hok
  · exact absurd hok (by simp)
  · split at hok
    · exact absurd hok (by simp)
    · next u2' heq =>
        injection hok with hok
        rw [Prod.mk.injEq] at hok
        obtain ⟨h2, h3⟩ := hok
        subst h2
        obtain ⟨hchecks, hval⟩ := resolveLoop_ok_elim _ _ _ _ _ heq
        set S1 := updDelaySteps md preSteps syns delays with hS1
        set N1 := computeNeeds u S1 outgoing with hN1
        have hsn : u2'.syn_needs = N1 := by
          rw [hval, applyFold_syn_needs]; rfl
        have hcheck : ∀ r, r ∈ N1 →
            reqCheck (prepUnit u N1) S1 N1 r = true := by
          intro r hr
          exact hchecks r (List.mem_filter.mpr ⟨mem_reqOrder r, by simpa using hr⟩)
        rw [hsn]
        refine ⟨?_, ?_, ?_⟩
        · intro hmem
          have hc := hcheck _ hmem
          simp only [reqCheck, Bool.and_eq_true, decide_eq_true_eq] at hc
          exact hc.2
        · intro hmem
          have hc := hcheck _ hmem
          simp only [reqCheck, decide_eq_true_eq] at hc
          exact hc
        · intro hmem
          have hc := hcheck _ hmem
          simp only [reqCheck, decide_eq_true_eq] at hc
          exact hc

/-- Claim C5 (amended): re-running `init_pre_syn_update` with unchanged
wiring is observationally idempotent — the second run succeeds and returns
exactly the state produced by the first run, and the update-function set,
being a set of bound methods, gains no duplicates.  However, the loop
re-executes the initializer of *every* requirement in `syn_needs`, active or
not, overwriting the requirement state with freshly computed initial values
(see the counterexample): the claim's "only adds entries for requirements
not yet active" does not describe the mechanism, whose idempotence instead
comes from the initializers being deterministic in the wiring. -/
theorem C5_resolution_idempotent
    (md : ℚ) (preSteps : ℕ → ℤ) (delays : List ℚ) (syns outgoing : List synM)
    (u u2 : unitM) (syns2 : List synM)
    (hok : init_pre_syn_update md 0 preSteps delays syns outgoing u = .ok (u2, syns2)) :
    init_pre_syn_update md 0 preSteps delays syns2 outgoing u2 = .ok (u2, syns2) := by
  rw [init_pre_syn_update] at hok
  rw [if_neg (by norm_num : ¬ ((0:ℚ) ≠ 0))] at hok
  split at hok
  · exact absurd hok (by simp)
  · next u2' heq =>
      injection hok with hok
      rw [Prod.mk.injEq] at hok
      obtain ⟨h2, h3⟩ := hok
      subst h2
      obtain ⟨hchecks, hval⟩ := resolveLoop_ok_elim _ _ _ _ _ heq
      set S1 := updDelaySteps md preSteps syns delays with hS1
      set N1 := computeNeeds u S1 outgoing with hN1
      set L1 := reqOrder.filter (fun r => r ∈ N1) with hL1
      have hsn : u2'.syn_needs = N1 := by rw [hval, applyFold_syn_needs]; rfl
      have hhf : u2'.hasFunctions = true := by rw [hval, applyFold_hasFunctions]; rfl
      have htf : u2'.tau_fast = (prepUnit u N1).tau_fast := by
        rw [hval, applyFold_tau_fast]
      have htm : u2'.tau_mid = (prepUnit u N1).tau_mid := by
        rw [hval, applyFold_tau_mid]
      have hts : u2'.tau_slow = (prepUnit u N1).tau_slow := by
        rw [hval, applyFold_tau_slow]
      have hS2 : updDelaySteps md preSteps syns2 delays = syns2 := by
        rw [← h3, hS1]
        exact updDelaySteps_idem md preSteps syns delays
      have hN2 : computeNeeds u2' syns2 outgoing = N1 := by
        rw [← h3]
        exact computeNeeds_stable u u2' S1 outgoing (by rw [hsn, hN1])
      have hpu : prepUnit u2' N1 = u2' := by
        apply unitM.ext <;> simp [prepUnit, hsn, hhf]
      rw [init_pre_syn_update, if_neg (by norm_num : ¬ ((0:ℚ) ≠ 0)), hS2, hN2, hpu]
      have hrl : resolveLoop syns2 N1 L1 u2' = .ok (applyFold syns2 L1 u2') := by
        apply resolveLoop_ok_of_checks
        intro r hr
        rw [← h3]
        rw [reqCheck_congr u2' (prepUnit u N1) S1 N1 r htf htm hts]
        exact hchecks r hr
      have hfold : applyFold syns2 L1 u2' = u2' := by
        rw [← h3]
        conv_lhs => rw [hval]
        rw [applyFold_idem, ← hval]
      rw [hrl, hfold]

/-- A unit with `tau_mid` set and everything else fresh. -/
def uW : unitM :=
  unitM.mk 0 0 none (some 1) none ∅ false ∅ none none none none none none none
    none none none none none none none

/-- A static synapse declaring `inp_vector`, `balance`, `exp_scale` and
`lpf_mid_inp_sum`. -/
def synW : synM :=
  synM.mk 0 synapse_types.static 1 inputType.otherT
    {syn_reqs.inp_vector, syn_reqs.balance, syn_reqs.exp_scale,
     syn_reqs.lpf_mid_inp_sum} 0

/-- The result of resolving `uW` against `synW`. -/
def RW : unitM × List synM :=
  exOk (init_pre_syn_update 1 0 (fun _ => 2) [1] [synW] [] uW) (uW, [])

/-- Witness for C4: resolution of a unit receiving a synapse that declares
the whole `exp_scale` prerequisite chain succeeds, and every prerequisite is
in the resulting active set. -/
theorem C4_prerequisite_closure_witness :
    init_pre_syn_update 1 0 (fun _ => 2) [1] [synW] [] uW = .ok (RW.1, RW.2)
    ∧ syn_reqs.lpf_mid_inp_sum ∈ RW.1.syn_needs
    ∧ syn_reqs.inp_vector ∈ RW.1.syn_needs
    ∧ syn_reqs.balance ∈ RW.1.syn_needs :=
  ⟨rfl, by decide,
   (C4_prerequisite_closure 1 0 (fun _ => 2) [1] [synW] [] uW RW.1 RW.2 rfl).1
     (by decide),
   (C4_prerequisite_closure 1 0 (fun _ => 2) [1] [synW] [] uW RW.1 RW.2 rfl).2.2
     (by decide)⟩

/-- Witness for C5: re-running the resolution of `uW` against `synW` on its
own output returns the same state. -/
theorem C5_resolution_idempotent_witness :
    init_pre_syn_update 1 0 (fun _ => 2) [1] [synW] [] uW = .ok (RW.1, RW.2)
    ∧ init_pre_syn_update 1 0 (fun _ => 2) [1] RW.2 [] RW.1 = .ok (RW.1, RW.2) :=
  ⟨rfl, C5_resolution_idempotent 1 (fun _ => 2) [1] [synW] [] uW RW.1 RW.2 rfl⟩

/-- A unit whose `lpf_fast` requirement is already active (its update
closure registered, `lpf_fast` present with current value 5, `init_val`
0). -/
def uC : unitM :=
  unitM.mk 0 0 (some 1) none none {syn_reqs.lpf_fast} true {updFn.upd_lpf_fast}
    (some 5) none none none none none none none none none none none none none

/-- The result of re-running resolution on `uC`. -/
def RC : unitM × List synM :=
  exOk (init_pre_syn_update 1 0 (fun _ => 2) [] [] [] uC) (uC, [])

/-- Counterexample to C5 as stated: `uC` has the `lpf_fast` requirement
already active, its update function registered and its state `lpf_fast = 5`;
re-running `init_pre_syn_update` re-executes the arm's initializer
unconditionally and resets `lpf_fast` to `init_val = 0`, so resolution does
*not* leave the state of already-active requirements untouched. -/
theorem C5_resolution_resets_counterexample :
    uC.lpf_fast = some 5
    ∧ updFn.upd_lpf_fast ∈ uC.functions
    ∧ syn_reqs.lpf_fast ∈ uC.syn_needs
    ∧ init_pre_syn_update 1 0 (fun _ => 2) [] [] [] uC = .ok (RC.1, RC.2)
    ∧ RC.1.lpf_fast = some (0:ℚ)
    ∧ RC.1.lpf_fast ≠ uC.lpf_fast :=
  ⟨rfl, by decide, by decide, rfl, by decide, by decide⟩

end Draculab
